import Mathlib

/-!
Verification of the validation engine of the bo4e migration framework.

The definitions below are shallow embeddings of the Python sources under
`src/bomf/validation`: the error-id registry (`core/errors.py`), the
parameter model (`core/validator.py`), the path- and query-mapped
parameter providers (`path_map.py`, `query_map.py`), and the validation
manager's registration and per-record execution logic
(`core/execution.py`).  Machine-level details that the properties do not
depend on (the Mersenne-Twister generator, the blake2s digest) are
modelled by concrete deterministic functions with the same interface.
-/

namespace Bomf

/-- Association-list lookup keyed by decidable equality; models a Python
`dict` lookup (first matching key wins; the lists we build have unique keys). -/
def alookup {α β : Type} [DecidableEq α] : List (α × β) → α → Option β
  | [], _ => none
  | (k, v) :: rest, key => if key = k then some v else alookup rest key

/-- Association-list update; models `d[key] = val` on a Python `dict`
(overwrites in place, keeping the original insertion position, else appends). -/
def aupdate {α β : Type} [DecidableEq α] : List (α × β) → α → β → List (α × β)
  | [], key, val => [(key, val)]
  | (k, v) :: rest, key, val =>
      if key = k then (k, val) :: rest else (k, v) :: aupdate rest key val

/-- `True` iff the second list starts with the first (over character lists). -/
def startsWithChars : List Char → List Char → Bool
  | [], _ => true
  | _ :: _, [] => false
  | a :: as, b :: bs => a == b && startsWithChars as bs

/-- `True` iff `pat` occurs as a substring of `s`. -/
def hasSubChars (pat : List Char) : List Char → Bool
  | [] => startsWithChars pat []
  | c :: rest => startsWithChars pat (c :: rest) || hasSubChars pat rest

/-- Python's `pat in s` on strings. -/
def containsSub (s pat : String) : Bool := hasSubChars pat.data s.data

/-- `attribute_path.split(".")`. -/
def splitDotAux : List Char → List Char → List String
  | [], cur => [String.mk cur.reverse]
  | c :: rest, cur =>
      if c = '.' then String.mk cur.reverse :: splitDotAux rest []
      else splitDotAux rest (c :: cur)

/-- Dotted-path splitting, over the character list of the path. -/
def splitDot (s : String) : List String := splitDotAux s.data []

/-- `".".join(segments)`. -/
def joinDot : List String → String
  | [] => ""
  | [s] => s
  | s :: rest => s ++ "." ++ joinDot rest

theorem alookup_append_right {α β : Type} [DecidableEq α]
    (l : List (α × β)) (k : α) (v : β) (h : alookup l k = none) :
    alookup (l ++ [(k, v)]) k = some v := by
  induction l with
  | nil => simp [alookup]
  | cons hd tl ih =>
      simp only [alookup] at h ⊢
      by_cases hk : k = hd.1
      · simp [hk] at h
      · simp only [hk, if_false] at h ⊢
        exact ih h

theorem alookup_append_ne {α β : Type} [DecidableEq α]
    (l : List (α × β)) (k j : α) (v : β) (hne : j ≠ k) :
    alookup (l ++ [(k, v)]) j = alookup l j := by
  induction l with
  | nil => simp [alookup, hne]
  | cons hd tl ih =>
      simp only [alookup]
      by_cases hj : j = hd.1
      · simp [hj]
      · simp only [hj, if_false]
        exact ih

theorem alookup_some_mem {α β : Type} [DecidableEq α]
    {l : List (α × β)} {k : α} {v : β} (h : alookup l k = some v) :
    (k, v) ∈ l := by
  induction l with
  | nil => simp [alookup] at h
  | cons hd tl ih =>
      simp only [alookup] at h
      by_cases hk : k = hd.1
      · simp only [hk, if_true] at h
        cases h
        have : (k, hd.2) = hd := by
          rw [hk]
        rw [this]
        exact List.mem_cons_self _ _

      · simp only [hk, if_false] at h
        exact List.mem_cons_of_mem _ (ih h)

theorem alookup_none_not_memkey {α β : Type} [DecidableEq α]
    {l : List (α × β)} {k : α} (h : alookup l k = none) :
    k ∉ l.map Prod.fst := by
  induction l with
  | nil => simp
  | cons hd tl ih =>
      simp only [alookup] at h
      by_cases hk : k = hd.1
      · simp [hk] at h
      · simp only [hk, if_false] at h
        simp only [List.map_cons, List.mem_cons]
        rintro (h1 | h2)
        · exact hk h1
        · exact ih h h2

/-! ## Error-id registry (`core/errors.py`) -/

/-- The identifier tuple of a raise site, as computed by `_get_identifier`:
source file name, enclosing function name, line offset from the start of
the function. -/
structure Identifier where
  fileName : String
  funcName : String
  lineOffset : Nat
deriving DecidableEq, Repr

/-- Model of the pseudo-random generator draw used by `_generate_new_id`:
`random.seed(seed); random.randint(...)` is a deterministic function of the
seed.  The generator itself is modelled by a linear congruential step. -/
def prngDraw (seed : Nat) : Nat :=
  (seed * 1103515245 + 12345) % 2 ^ 31

/-- Model of `random.randint(lo, hi)` right after `random.seed(seed)`:
deterministic in the seed, with result in `[lo, hi]`. -/
def randintSeeded (lo hi seed : Nat) : Nat :=
  lo + prngDraw seed % (hi - lo + 1)

/-- Model of `int(hashlib.blake2s(s.encode(), digest_size=4).hexdigest(), 16)`:
a deterministic digest of the string. -/
def stringDigest (s : String) : Nat :=
  s.data.foldl (fun h c => (h * 131 + c.toNat) % 2 ^ 32) 5381

/-- `_generate_new_id`: seed the generator from the identifier (or from the
previously colliding id) and draw a 7-digit integer. -/
def generateNewId (identifier : Identifier) (lastId : Option Nat) : Nat :=
  match lastId with
  | some last => randintSeeded 1000000 9999999 last
  | none =>
      randintSeeded 1000000 9999999
        (stringDigest (identifier.fileName ++ identifier.funcName) + identifier.lineOffset)

/-- The process-wide `_ERROR_ID_MAP` (a `bidict`), as an association list. -/
abbrev ErrorIdMap := List (Identifier × Nat)

/-- `candidate in _ERROR_ID_MAP.inverse`. -/
def idTaken (st : ErrorIdMap) (n : Nat) : Bool := st.any (fun e => e.2 == n)

/-- The `while True` redraw loop of `_get_error_id`, with explicit fuel
(the Python loop has no a-priori bound; `st.length + 1` draws suffice unless
the generator cycles, in which case the Python loop would not terminate). -/
def freshIdLoop (identifier : Identifier) (st : ErrorIdMap) : Nat → Nat → Option Nat
  | 0, _ => none
  | fuel + 1, candidate =>
      if idTaken st candidate then
        freshIdLoop identifier st fuel (generateNewId identifier (some candidate))
      else some candidate

/-- `_get_error_id`: return the memoized id for `identifier`, or draw a fresh
id avoiding collisions and record it (threading the process-wide map). -/
def getErrorId (st : ErrorIdMap) (identifier : Identifier) : Option (Nat × ErrorIdMap) :=
  match alookup st identifier with
  | some n => some (n, st)
  | none =>
      match freshIdLoop identifier st (st.length + 1) (generateNewId identifier none) with
      | some c => some (c, st ++ [(identifier, c)])
      | none => none

/-- A run of the registry over a sequence of raise-site identifiers. -/
def runIds (st : ErrorIdMap) : List Identifier → Option (List Nat × ErrorIdMap)
  | [] => some ([], st)
  | i :: rest =>
      match getErrorId st i with
      | none => none
      | some (n, st1) =>
          match runIds st1 rest with
          | none => none
          | some (ns, st2) => some (n :: ns, st2)

/-- Well-formedness of the registry: it is a bidict, so both the identifier
keys and the assigned ids are free of duplicates. -/
def IdMapWF (st : ErrorIdMap) : Prop :=
  (st.map Prod.fst).Nodup ∧ (st.map Prod.snd).Nodup

theorem freshIdLoop_not_taken {identifier : Identifier} {st : ErrorIdMap}
    {fuel cand c : Nat} (h : freshIdLoop identifier st fuel cand = some c) :
    idTaken st c = false := by
  induction fuel generalizing cand with
  | zero => simp [freshIdLoop] at h
  | succ n ih =>
      simp only [freshIdLoop] at h
      by_cases ht : idTaken st cand
      · simp only [ht, if_true] at h
        exact ih h
      · simp only [ht, if_false] at h
        cases h
        simpa using ht

theorem idTaken_false_iff {st : ErrorIdMap} {n : Nat} :
    idTaken st n = false ↔ n ∉ st.map Prod.snd := by
  unfold idTaken
  rw [List.any_eq_false]
  constructor
  · intro h hc
    rcases List.mem_map.mp hc with ⟨e, he, hrfl⟩
    have h2 := h e he
    simp only [beq_iff_eq] at h2
    exact h2 hrfl
  · intro h e he
    simp only [beq_iff_eq]
    intro hrfl
    exact h (List.mem_map.mpr ⟨e, he, hrfl⟩)

theorem generateNewId_range (identifier : Identifier) (lastId : Option Nat) :
    1000000 ≤ generateNewId identifier lastId ∧ generateNewId identifier lastId ≤ 9999999 := by
  have hmain : ∀ s : Nat, 1000000 ≤ randintSeeded 1000000 9999999 s ∧
      randintSeeded 1000000 9999999 s ≤ 9999999 := by
    intro s
    unfold randintSeeded
    constructor
    · omega
    · have : prngDraw s % (9999999 - 1000000 + 1) < 9999999 - 1000000 + 1 :=
        Nat.mod_lt _ (by norm_num)
      omega
  cases lastId with
  | none => exact hmain _
  | some l => exact hmain _

/-- Ids looked up in a well-formed registry are uniquely attached to their
identifier: two entries with the same id have the same identifier. -/
theorem ids_nodup_inj {st : ErrorIdMap} (h : (st.map Prod.snd).Nodup)
    {a b : Identifier} {x y : Nat} (ha : (a, x) ∈ st) (hb : (b, y) ∈ st)
    (hxy : x = y) : a = b := by
  induction st with
  | nil => simp at ha
  | cons hd tl ih =>
      simp only [List.map_cons, List.nodup_cons] at h
      rcases List.mem_cons.mp ha with ha1 | ha2 <;>
        rcases List.mem_cons.mp hb with hb1 | hb2
      · rw [← ha1] at hb1
        exact congrArg Prod.fst hb1.symm
      · exfalso
        apply h.1
        have : y ∈ tl.map Prod.snd := List.mem_map.mpr ⟨(b, y), hb2, rfl⟩
        have hx2 : hd.2 = x := by rw [← ha1]
        rw [hx2, hxy]
        exact this
      · exfalso
        apply h.1
        have : x ∈ tl.map Prod.snd := List.mem_map.mpr ⟨(a, x), ha2, rfl⟩
        have hy2 : hd.2 = y := by rw [← hb1]
        rw [hy2, ← hxy]
        exact this
      · exact ih h.2 ha2 hb2

/-- Inversion of `getErrorId`: a successful lookup either found a memoized id
(and left the registry unchanged) or drew a fresh collision-free id and
appended it. -/
theorem getErrorId_inv {st : ErrorIdMap} {i : Identifier} {n : Nat} {st' : ErrorIdMap}
    (h : getErrorId st i = some (n, st')) :
    (alookup st i = some n ∧ st' = st) ∨
      (alookup st i = none ∧ idTaken st n = false ∧ st' = st ++ [(i, n)]) := by
  unfold getErrorId at h
  cases hl : alookup st i with
  | some m =>
      rw [hl] at h
      cases h
      exact Or.inl ⟨rfl, rfl⟩
  | none =>
      rw [hl] at h
      cases hf : freshIdLoop i st (st.length + 1) (generateNewId i none) with
      | none => rw [hf] at h; cases h
      | some c =>
          rw [hf] at h
          cases h
          exact Or.inr ⟨rfl, freshIdLoop_not_taken hf, rfl⟩

/-- C4: the process-wide error-id assignment is a deterministic function of the
identifier tuple: a second lookup of an identifier returns the id already
assigned to it and leaves the registry unchanged; two distinct identifiers are
assigned distinct ids; and runs over identical identifier sequences produce
identical id assignments. -/
theorem error_id_assignment_deterministic
    (st st1 st2 : ErrorIdMap) (i j : Identifier) (ni nj : Nat)
    (hwf : IdMapWF st) (hij : i ≠ j)
    (hi : getErrorId st i = some (ni, st1))
    (hj : getErrorId st1 j = some (nj, st2)) :
    getErrorId st1 i = some (ni, st1) ∧ ni ≠ nj ∧
      ∀ l1 l2 : List Identifier, l1 = l2 → runIds st l1 = runIds st l2 := by
  refine ⟨?_, ?_, ?_⟩
  · rcases getErrorId_inv hi with ⟨hfound, hst⟩ | ⟨hnone, _, hst⟩
    · rw [hst]
      unfold getErrorId
      rw [hfound]
    · rw [hst]
      unfold getErrorId
      rw [alookup_append_right st i ni hnone]
  · rcases getErrorId_inv hi with ⟨hfound, hst⟩ | ⟨hnone, hfresh, hst⟩
    · -- i was memoized, st1 = st
      have hmi : (i, ni) ∈ st := alookup_some_mem hfound
      rcases getErrorId_inv hj with ⟨hfound2, _⟩ | ⟨_, hfresh2, _⟩
      · have hmj : (j, nj) ∈ st := alookup_some_mem (hst ▸ hfound2)
        intro heq
        exact hij (ids_nodup_inj hwf.2 hmi hmj heq)
      · have hni : ni ∈ st.map Prod.snd := List.mem_map.mpr ⟨(i, ni), hmi, rfl⟩
        have hnj : nj ∉ st.map Prod.snd := idTaken_false_iff.mp (hst ▸ hfresh2)
        intro heq
        exact hnj (heq ▸ hni)
    · -- i was fresh, st1 = st ++ [(i, ni)]
      rcases getErrorId_inv hj with ⟨hfound2, _⟩ | ⟨_, hfresh2, _⟩
      · have hmj : (j, nj) ∈ st ++ [(i, ni)] := alookup_some_mem (hst ▸ hfound2)
        rcases List.mem_append.mp hmj with hin | hlast
        · have hnj : nj ∈ st.map Prod.snd := List.mem_map.mpr ⟨(j, nj), hin, rfl⟩
          have hni : ni ∉ st.map Prod.snd := idTaken_false_iff.mp hfresh
          intro heq
          exact hni (heq ▸ hnj)
        · simp only [List.mem_singleton, Prod.mk.injEq] at hlast
          exact absurd hlast.1.symm hij
      · have hnj : nj ∉ (st ++ [(i, ni)]).map Prod.snd :=
          idTaken_false_iff.mp (hst ▸ hfresh2)
        intro heq
        apply hnj
        rw [← heq]
        simp
  · intro l1 l2 h
    rw [h]

set_option maxRecDepth 8000 in
/-- Witness for C4 at concrete inputs: two distinct identifiers looked up in
the empty registry; the first id is memoized and distinct from the second. -/
theorem error_id_assignment_deterministic_witness :
    getErrorId [(⟨"v.py", "f", 1⟩, 4096854)] ⟨"v.py", "f", 1⟩ =
        some (4096854, [(⟨"v.py", "f", 1⟩, 4096854)]) ∧
      (4096854 : Nat) ≠ 1720749 := by
  have h := error_id_assignment_deterministic [] [(⟨"v.py", "f", 1⟩, 4096854)]
    [(⟨"v.py", "f", 1⟩, 4096854), (⟨"w.py", "g", 2⟩, 1720749)]
    ⟨"v.py", "f", 1⟩ ⟨"w.py", "g", 2⟩ 4096854 1720749
    (by constructor <;> simp) (by decide) (by rfl) (by rfl)
  exact ⟨h.1, h.2.1⟩

/-! ## Records, attribute navigation (`core/utils.py`) and the validator
parameter model (`core/validator.py`) -/

/-- A Python attribute value as seen by the engine: a primitive, `None`, a
list, or an object with named attributes. -/
inductive PyVal where
  | vstr : String → PyVal
  | vint : Int → PyVal
  | vnone : PyVal
  | vlist : List PyVal → PyVal
  | vobj : List (String × PyVal) → PyVal

/-- `getattr` on a value: attribute lookup succeeds only on objects carrying
that attribute. -/
def getattr : PyVal → String → Option PyVal
  | PyVal.vobj fields, attr => alookup fields attr
  | _, _ => none

/-- `required_field(obj, attribute_path, Any)` from `core/utils.py`: split the
path on dots and walk it with `getattr`; on a missing segment the raised
`AttributeError` names the path up to and including the failing segment.
(With attribute type `Any`, as the providers use it, the final `check_type`
never fails.) -/
def requiredFieldAux (allSegs : List String) : PyVal → List String → Nat → Except String PyVal
  | cur, [], _ => .ok cur
  | cur, seg :: rest, idx =>
      match getattr cur seg with
      | some nxt => requiredFieldAux allSegs nxt rest (idx + 1)
      | none =>
          .error ("\x27" ++ joinDot (allSegs.take (idx + 1)) ++ "\x27 does not exist")

/-- `required_field` with the `Any` attribute type. -/
def required_field (obj : PyVal) (attributePath : String) : Except String PyVal :=
  requiredFieldAux (splitDot attributePath) obj (splitDot attributePath) 0

/-- One declared parameter of a validator function signature: its name,
whether it has a default value (i.e. is optional), and that default. -/
structure PParam where
  name : String
  hasDefault : Bool
  default : PyVal

/-- Model of `Validator` (`core/validator.py`): the wrapped user function is
identified by `funcId` (Python's `Validator.__eq__` compares `self.func`),
together with its signature parameters in declaration order and its
sync/async flag. -/
structure PValidator where
  funcId : Nat
  name : String
  params : List PParam
  isAsync : Bool

/-- `required_param_names`: parameters whose signature default is empty. -/
def requiredParamNames (v : PValidator) : List String :=
  (v.params.filter (fun p => !p.hasDefault)).map PParam.name

/-- `optional_param_names`: the complement of the required names. -/
def optionalParamNames (v : PValidator) : List String :=
  (v.params.filter (fun p => p.hasDefault)).map PParam.name

/-- `self.validator.signature.parameters[param_name].default`. -/
def paramDefault (v : PValidator) (n : String) : PyVal :=
  ((v.params.find? (fun p => p.name == n)).map PParam.default).getD PyVal.vnone

/-- Model of `Parameter`: one bound argument with its human-readable origin id
and the flag telling whether the record actually provided it. -/
structure PParameter where
  mapped_validator : Nat
  name : String
  value : PyVal
  param_id : String
  provided : Bool

/-- Model of a constructed `Parameters` object: the frozen entry dict, the
owning mapped validator and the derived `param_dict`. -/
structure ParametersM where
  mapped_validator : Nat
  entries : List (String × PParameter)
  param_dict : List (String × PyVal)

/-- Model of `Parameters.__init__`/`__new__`: reject parameters whose
`mapped_validator` differs from the constructor's, then derive `param_dict`
from the provided parameters. -/
def mkParameters (mv : Nat) (kwargs : List (String × PParameter)) :
    Except String ParametersM :=
  let mvs := (kwargs.map (fun kv => kv.2.mapped_validator)).dedup
  if mvs.length > 1 ∨ (mvs.length = 1 ∧ mvs.headD mv ≠ mv) then
    .error "You cannot add parameters with different providers"
  else
    .ok ⟨mv, kwargs,
      kwargs.filterMap
        (fun kv => if kv.2.provided then some (kv.2.name, kv.2.value) else none)⟩

/-- C9: constructing a `Parameters` object raises `ValueError` iff some
contained `Parameter` refers to a mapped validator different from the one
passed to the constructor; on success `param_dict` holds exactly the
name-to-value pairs of the contained parameters whose `provided` flag is
true. -/
theorem parameters_init_spec (mv : Nat) (kwargs : List (String × PParameter)) :
    ((∃ msg, mkParameters mv kwargs = .error msg) ↔
        ∃ kv ∈ kwargs, kv.2.mapped_validator ≠ mv) ∧
      ∀ P, mkParameters mv kwargs = .ok P →
        P.param_dict = kwargs.filterMap
          (fun kv => if kv.2.provided then some (kv.2.name, kv.2.value) else none) := by
  constructor
  · unfold mkParameters
    by_cases hc : ((kwargs.map (fun kv => kv.2.mapped_validator)).dedup.length > 1 ∨
        ((kwargs.map (fun kv => kv.2.mapped_validator)).dedup.length = 1 ∧
          (kwargs.map (fun kv => kv.2.mapped_validator)).dedup.headD mv ≠ mv))
    · simp only [hc, if_true]
      constructor
      · intro _
        -- from the branch condition extract a differing mapped validator
        rcases hc with hlen | ⟨hlen, hhead⟩
        · -- at least two distinct values occur
          rcases hd : (kwargs.map (fun kv => kv.2.mapped_validator)).dedup with _ | ⟨a, tl⟩
          · rw [hd] at hlen; simp at hlen
          · rcases htl : tl with _ | ⟨b, tl2⟩
            · rw [hd, htl] at hlen; simp at hlen
            · have hnd := List.nodup_dedup (kwargs.map (fun kv => kv.2.mapped_validator))
              rw [hd, htl] at hnd
              have hab : a ≠ b := by
                intro h
                rw [h] at hnd
                simp at hnd
              have hamem : a ∈ kwargs.map (fun kv => kv.2.mapped_validator) := by
                rw [← List.mem_dedup, hd]; simp
              have hbmem : b ∈ kwargs.map (fun kv => kv.2.mapped_validator) := by
                rw [← List.mem_dedup, hd, htl]; simp
              by_cases ha : a = mv
              · rcases List.mem_map.mp hbmem with ⟨kv, hkv, hval⟩
                exact ⟨kv, hkv, by rw [hval]; rw [ha] at hab; exact fun h => hab (h ▸ rfl)⟩
              · rcases List.mem_map.mp hamem with ⟨kv, hkv, hval⟩
                exact ⟨kv, hkv, by rw [hval]; exact ha⟩
        · rcases hd : (kwargs.map (fun kv => kv.2.mapped_validator)).dedup with _ | ⟨a, tl⟩
          · rw [hd] at hlen; simp at hlen
          · have htl : tl = [] := by
              rw [hd] at hlen
              simpa using hlen
            have hamem : a ∈ kwargs.map (fun kv => kv.2.mapped_validator) := by
              rw [← List.mem_dedup, hd]; simp
            rcases List.mem_map.mp hamem with ⟨kv, hkv, hval⟩
            refine ⟨kv, hkv, ?_⟩
            rw [hval]
            rw [hd, htl] at hhead
            simpa using hhead
      · intro _
        exact ⟨_, rfl⟩
    · simp only [hc, if_false]
      constructor
      · rintro ⟨msg, h⟩
        cases h
      · rintro ⟨kv, hkv, hne⟩
        exfalso
        push_neg at hc
        obtain ⟨hle, hhead⟩ := hc
        have hmem : kv.2.mapped_validator ∈
            (kwargs.map (fun kv => kv.2.mapped_validator)).dedup := by
          rw [List.mem_dedup]
          exact List.mem_map.mpr ⟨kv, hkv, rfl⟩
        rcases hd : (kwargs.map (fun kv => kv.2.mapped_validator)).dedup with _ | ⟨a, tl⟩
        · rw [hd] at hmem; simp at hmem
        · have htl : tl = [] := by
            rw [hd] at hle
            simp only [List.length_cons, gt_iff_lt, not_lt] at hle
            have h0 : tl.length = 0 := by omega
            exact List.length_eq_zero.mp h0
          rw [hd, htl] at hmem hhead
          have ha : a = mv := hhead (by simp)
          simp only [List.mem_singleton] at hmem
          exact hne (hmem.trans ha)
  · intro P hP
    unfold mkParameters at hP
    by_cases hc : ((kwargs.map (fun kv => kv.2.mapped_validator)).dedup.length > 1 ∨
        ((kwargs.map (fun kv => kv.2.mapped_validator)).dedup.length = 1 ∧
          (kwargs.map (fun kv => kv.2.mapped_validator)).dedup.headD mv ≠ mv))
    · simp only [hc, if_true] at hP
      cases hP
    · simp only [hc, if_false] at hP
      cases hP
      rfl

/-- Witness for C9: a parameter carrying a foreign mapped validator makes the
constructor fail. -/
theorem parameters_init_spec_witness :
    ∃ kv ∈ [("x", (⟨7, "x", PyVal.vnone, "x", true⟩ : PParameter))],
      kv.2.mapped_validator ≠ 3 :=
  (parameters_init_spec 3 [("x", ⟨7, "x", PyVal.vnone, "x", true⟩)]).1.mp ⟨_, rfl⟩

/-! ## Mapped validator identity (`path_map.py`, `query_map.py`) -/

/-- `Validator.__eq__`: two validators are equal iff they wrap the same
function object. -/
def validatorEq (a b : PValidator) : Bool := a.funcId == b.funcId

/-- `Validator.__hash__` is `hash(self.func)`. -/
def validatorHash (a : PValidator) : Nat := a.funcId

/-- Python `dict`/`frozendict` equality: the same keys mapped to the same
values, regardless of insertion order. -/
def dictEq {β : Type} [DecidableEq β] (d1 d2 : List (String × β)) : Bool :=
  d1.all (fun kv => decide (alookup d2 kv.1 = some kv.2)) &&
    d2.all (fun kv => decide (alookup d1 kv.1 = some kv.2))

/-- Model of `PathMappedValidator`: the wrapped validator plus the tuple of
`{param → dotted path}` maps. -/
structure PathMappedValidatorM where
  validator : PValidator
  param_maps : List (List (String × String))

/-- Tuple equality over the `frozendict` maps. -/
def paramMapsEq (m1 m2 : List (List (String × String))) : Bool :=
  m1.length == m2.length && (List.zip m1 m2).all (fun pr => dictEq pr.1 pr.2)

/-- `PathMappedValidator.__eq__`: equal wrapped validator and equal map
tuples. -/
def pathMappedEq (a b : PathMappedValidatorM) : Bool :=
  validatorEq a.validator b.validator && paramMapsEq a.param_maps b.param_maps

/-- Hash of one `frozendict` item. -/
def pairHashS (kv : String × String) : Nat :=
  stringDigest kv.1 + 1000003 * stringDigest kv.2

/-- Model of `hash(frozendict)`: an order-insensitive combination of the item
hashes. -/
def frozendictHashS (d : List (String × String)) : Nat := (d.map pairHashS).sum

/-- Model of `hash(self.param_maps)` (a tuple hash: order-sensitive fold). -/
def paramMapsHash (m : List (List (String × String))) : Nat :=
  m.foldl (fun h d => h * 31 + frozendictHashS d) 7

/-- `PathMappedValidator.__hash__` = `hash(self.param_maps) + hash(self.validator)`. -/
def pathMappedHash (a : PathMappedValidatorM) : Nat :=
  paramMapsHash a.param_maps + validatorHash a.validator

/-- Model of `QueryMappedValidator` for identity purposes: `Query` objects
define no `__eq__`, so a query value is its Python object identity. -/
structure QueryMappedValidatorM where
  validator : PValidator
  param_map : List (String × Nat)

/-- `QueryMappedValidator.__eq__` (`query_map.py`): compares only
`self.param_map`; the wrapped validator is not compared. -/
def queryMappedEq (a b : QueryMappedValidatorM) : Bool :=
  dictEq a.param_map b.param_map

/-- Hash of one query-map item. -/
def pairHashQ (kv : String × Nat) : Nat := stringDigest kv.1 + 1000003 * kv.2

/-- Model of `hash(frozendict)` for query maps. -/
def frozendictHashQ (d : List (String × Nat)) : Nat := (d.map pairHashQ).sum

/-- `QueryMappedValidator.__hash__` = `hash(self.param_map)`. -/
def queryMappedHash (a : QueryMappedValidatorM) : Nat := frozendictHashQ a.param_map

/-- Dicts with duplicate-free keys that are equal as dicts are permutations
of each other. -/
theorem dictEq_perm {β : Type} [DecidableEq β] {d1 d2 : List (String × β)}
    (h1 : (d1.map Prod.fst).Nodup) (h2 : (d2.map Prod.fst).Nodup)
    (he : dictEq d1 d2 = true) : d1.Perm d2 := by
  unfold dictEq at he
  rw [Bool.and_eq_true] at he
  obtain ⟨he1, he2⟩ := he
  rw [List.all_eq_true] at he1 he2
  rw [List.perm_ext_iff_of_nodup (h1.of_map _) (h2.of_map _)]
  intro kv
  constructor
  · intro hm
    have := he1 kv hm
    rw [decide_eq_true_eq] at this
    exact alookup_some_mem this
  · intro hm
    have := he2 kv hm
    rw [decide_eq_true_eq] at this
    exact alookup_some_mem this

/-- Dict-equal maps with duplicate-free keys have equal `frozendict` hashes. -/
theorem dictEq_hashS {d1 d2 : List (String × String)}
    (h1 : (d1.map Prod.fst).Nodup) (h2 : (d2.map Prod.fst).Nodup)
    (he : dictEq d1 d2 = true) : frozendictHashS d1 = frozendictHashS d2 :=
  ((dictEq_perm h1 h2 he).map pairHashS).sum_eq

theorem paramMapsEq_hash {m1 m2 : List (List (String × String))}
    (h1 : ∀ d ∈ m1, (d.map Prod.fst).Nodup) (h2 : ∀ d ∈ m2, (d.map Prod.fst).Nodup)
    (he : paramMapsEq m1 m2 = true) : paramMapsHash m1 = paramMapsHash m2 := by
  unfold paramMapsEq at he
  rw [Bool.and_eq_true] at he
  obtain ⟨hlen, hall⟩ := he
  rw [beq_iff_eq] at hlen
  rw [List.all_eq_true] at hall
  unfold paramMapsHash
  -- fold over pointwise dict-equal maps with a generalized accumulator
  suffices h : ∀ (acc : Nat) (l1 l2 : List (List (String × String))),
      l1.length = l2.length →
      (∀ d ∈ l1, (d.map Prod.fst).Nodup) → (∀ d ∈ l2, (d.map Prod.fst).Nodup) →
      (∀ pr ∈ List.zip l1 l2, dictEq pr.1 pr.2 = true) →
      l1.foldl (fun h d => h * 31 + frozendictHashS d) acc =
        l2.foldl (fun h d => h * 31 + frozendictHashS d) acc by
    exact h 7 m1 m2 hlen h1 h2 hall
  intro acc l1 l2 hlen h1 h2 hall
  induction l1 generalizing acc l2 with
  | nil =>
      cases l2 with
      | nil => rfl
      | cons b t => simp at hlen
  | cons a t ih =>
      cases l2 with
      | nil => simp at hlen
      | cons b t2 =>
          simp only [List.foldl_cons]
          have hab : dictEq a b = true := hall (a, b) (by simp [List.zip_cons_cons])
          rw [dictEq_hashS (h1 a (by simp)) (h2 b (by simp)) hab]
          exact ih (acc * 31 + frozendictHashS b) t2 (by simpa using hlen)
            (fun d hd => h1 d (List.mem_cons_of_mem _ hd))
            (fun d hd => h2 d (List.mem_cons_of_mem _ hd))
            (fun pr hpr => hall pr (by
              rw [List.zip_cons_cons]
              exact List.mem_cons_of_mem _ hpr))

/-- C3 (amended): path-mapped validators are equal iff both the wrapped
validator and the map tuples are equal, but query-mapped validators are equal
iff their parameter maps are equal — the wrapped validator is not compared;
in both kinds equal mapped validators have equal hashes. -/
theorem mapped_validator_equality_spec
    (a b : PathMappedValidatorM) (c d : QueryMappedValidatorM)
    (hma : ∀ m ∈ a.param_maps, (m.map Prod.fst).Nodup)
    (hmb : ∀ m ∈ b.param_maps, (m.map Prod.fst).Nodup)
    (hmc : (c.param_map.map Prod.fst).Nodup)
    (hmd : (d.param_map.map Prod.fst).Nodup) :
    (pathMappedEq a b = true ↔
        (validatorEq a.validator b.validator = true ∧
          paramMapsEq a.param_maps b.param_maps = true)) ∧
      (queryMappedEq c d = true ↔ dictEq c.param_map d.param_map = true) ∧
      (pathMappedEq a b = true → pathMappedHash a = pathMappedHash b) ∧
      (queryMappedEq c d = true → queryMappedHash c = queryMappedHash d) := by
  refine ⟨?_, Iff.rfl, ?_, ?_⟩
  · unfold pathMappedEq
    rw [Bool.and_eq_true]
  · intro he
    unfold pathMappedEq at he
    rw [Bool.and_eq_true] at he
    obtain ⟨hv, hm⟩ := he
    unfold pathMappedHash
    rw [paramMapsEq_hash hma hmb hm]
    unfold validatorEq at hv
    rw [beq_iff_eq] at hv
    unfold validatorHash
    rw [hv]
  · intro he
    unfold queryMappedEq at he
    unfold queryMappedHash
    exact ((dictEq_perm hmc hmd he).map pairHashQ).sum_eq

/-- Witness for C3 at concrete inputs. -/
theorem mapped_validator_equality_spec_witness :
    pathMappedEq ⟨⟨0, "f", [], false⟩, [[("x", "x")]]⟩ ⟨⟨0, "f", [], false⟩, [[("x", "x")]]⟩ = true ∧
      pathMappedHash ⟨⟨0, "f", [], false⟩, [[("x", "x")]]⟩ =
        pathMappedHash ⟨⟨0, "f", [], false⟩, [[("x", "x")]]⟩ := by
  have h := mapped_validator_equality_spec
    ⟨⟨0, "f", [], false⟩, [[("x", "x")]]⟩ ⟨⟨0, "f", [], false⟩, [[("x", "x")]]⟩
    ⟨⟨0, "g", [], false⟩, [("y", 5)]⟩ ⟨⟨0, "g", [], false⟩, [("y", 5)]⟩
    (by intro m hm; simp at hm; rw [hm]; simp)
    (by intro m hm; simp at hm; rw [hm]; simp)
    (by simp) (by simp)
  exact ⟨by rfl, h.2.2.1 (by rfl)⟩

/-- Counterexample for C3 as stated: two query-mapped validators wrapping
different validator functions but sharing the parameter map compare equal,
although their wrapped validators do not. -/
theorem mapped_validator_equality_counterexample :
    queryMappedEq ⟨⟨0, "f", [], false⟩, [("x", 5)]⟩ ⟨⟨1, "g", [], false⟩, [("x", 5)]⟩ = true ∧
      validatorEq (⟨0, "f", [], false⟩ : PValidator) ⟨1, "g", [], false⟩ = false := by
  constructor <;> rfl

/-! ## Path-mapped parameter provider (`path_map.py`) -/

/-- One element yielded by a `provide` generator: either an exception value
carrying its message, or a complete `Parameters` object (represented by its
keyword entries; the `Parameters` constructor cannot fail here because every
entry carries the provider's own mapped validator). -/
inductive PPItem where
  | errItem (msg : String)
  | paramsItem (ps : List (String × PParameter))

/-- The body of `PathMappedValidator.provide` for a single parameter map:
walk each `{param → path}` entry in order.  A successful walk binds the value
with `provided=True`; a failed walk on a required parameter yields the walk's
`AttributeError` and abandons the map (the constructed "... not provided"
error is discarded by the source, which yields the original error); a failed
walk on an optional parameter binds the declared default with
`provided=False`. -/
def providePathMap (v : PValidator) (mvId : Nat) (ds : PyVal)
    (acc : List (String × PParameter)) : List (String × String) → List PPItem
  | [] => [PPItem.paramsItem acc]
  | (param_name, attr_path) :: rest =>
      match required_field ds attr_path with
      | .ok value =>
          providePathMap v mvId ds
            (acc ++ [(param_name, ⟨mvId, param_name, value, attr_path, true⟩)]) rest
      | .error msg =>
          if param_name ∈ requiredParamNames v then
            [PPItem.errItem msg]
          else
            providePathMap v mvId ds
              (acc ++ [(param_name,
                ⟨mvId, param_name, paramDefault v param_name, attr_path, false⟩)]) rest

/-- `PathMappedValidator.provide`: the maps are processed in order, each
contributing its own yields. -/
def providePath (v : PValidator) (mvId : Nat) (ds : PyVal)
    (param_maps : List (List (String × String))) : List PPItem :=
  param_maps.flatMap (providePathMap v mvId ds [])

/-- `True` iff the dotted-path walk fails on the record. -/
def walkFails (ds : PyVal) (path : String) : Bool :=
  match required_field ds path with
  | .error _ => true
  | .ok _ => false

/-- The parameter built for one map entry when the map is not abandoned. -/
def builtPathParam (v : PValidator) (mvId : Nat) (ds : PyVal)
    (pr : String × String) : String × PParameter :=
  match required_field ds pr.2 with
  | .ok value => (pr.1, ⟨mvId, pr.1, value, pr.2, true⟩)
  | .error _ => (pr.1, ⟨mvId, pr.1, paramDefault v pr.1, pr.2, false⟩)

/-- The specified outcome of one map, per the (amended) claim: if some entry
in map order names a required parameter whose path walk fails, the map yields
exactly that walk's `AttributeError` (whose message says the path does not
exist) and nothing else; otherwise it yields exactly one complete `Parameters`
object, binding walked values and, for optional parameters with missing
paths, the declared defaults with `provided=False`. -/
def specPathMapOutcome (v : PValidator) (mvId : Nat) (ds : PyVal)
    (m : List (String × String)) : List PPItem :=
  match m.find? (fun pr => decide (pr.1 ∈ requiredParamNames v) && walkFails ds pr.2) with
  | some pr =>
      match required_field ds pr.2 with
      | .error msg => [PPItem.errItem msg]
      | .ok _ => []
  | none => [PPItem.paramsItem (m.map (builtPathParam v mvId ds))]

theorem providePathMap_spec (v : PValidator) (mvId : Nat) (ds : PyVal)
    (m : List (String × String)) (acc : List (String × PParameter)) :
    providePathMap v mvId ds acc m =
      match m.find? (fun pr => decide (pr.1 ∈ requiredParamNames v) && walkFails ds pr.2) with
      | some pr =>
          match required_field ds pr.2 with
          | .error msg => [PPItem.errItem msg]
          | .ok _ => []
      | none => [PPItem.paramsItem (acc ++ m.map (builtPathParam v mvId ds))] := by
  induction m generalizing acc with
  | nil => simp [providePathMap, List.find?]
  | cons hd tl ih =>
      obtain ⟨param_name, attr_path⟩ := hd
      cases hw : required_field ds attr_path with
      | ok value =>
          have hwf : walkFails ds attr_path = false := by
            unfold walkFails
            rw [hw]
          simp only [providePathMap, hw, List.find?, hwf, Bool.and_false, ih]
          cases tl.find? (fun pr =>
              decide (pr.1 ∈ requiredParamNames v) && walkFails ds pr.2) with
          | some pr => rfl
          | none =>
              simp only [List.map_cons, builtPathParam, hw, List.append_assoc,
                List.singleton_append]
      | error msg =>
          have hwf : walkFails ds attr_path = true := by
            unfold walkFails
            rw [hw]
          by_cases hreq : param_name ∈ requiredParamNames v
          · simp only [providePathMap, hw, hreq, if_true, List.find?, hwf, decide_eq_true_eq]
            simp only [hreq, decide_True, Bool.true_and, hw]
          · simp only [providePathMap, hw, hreq, if_false, List.find?, hwf]
            have : decide (param_name ∈ requiredParamNames v) = false := by
              simp [hreq]
            simp only [this, Bool.false_and, ih]
            cases tl.find? (fun pr =>
                decide (pr.1 ∈ requiredParamNames v) && walkFails ds pr.2) with
            | some pr => simp [hreq]
            | none => simp [builtPathParam, hw, hreq]

/-- C5 (amended): `PathMappedValidator.provide` processes each map in order;
when a required parameter's path walk fails, the map yields exactly the walk's
`AttributeError` (its message names the failing path as not existing, not as
"not provided") and nothing else; when no required parameter is missing it
yields one complete `Parameters` object in which missing optional parameters
carry the declared default with `provided=False`. -/
theorem path_provide_spec (v : PValidator) (mvId : Nat) (ds : PyVal)
    (param_maps : List (List (String × String))) :
    providePath v mvId ds param_maps =
      param_maps.flatMap (specPathMapOutcome v mvId ds) := by
  unfold providePath
  congr 1
  funext m
  rw [providePathMap_spec]
  unfold specPathMapOutcome
  cases m.find? (fun pr => decide (pr.1 ∈ requiredParamNames v) && walkFails ds pr.2) with
  | some pr => rfl
  | none => simp

/-- Counterexample for C5 as stated: for a required parameter mapped to the
missing path `z.z`, the yielded `AttributeError` is the walk's original
error — its message says the path does not exist and does not contain
"not provided". -/
theorem path_provide_counterexample :
    providePath ⟨0, "unprovided_but_required", [⟨"zz", false, PyVal.vnone⟩], false⟩ 0
        (PyVal.vobj [("z", PyVal.vobj [("x", PyVal.vstr "Hello")])]) [[("zz", "z.z")]] =
      [PPItem.errItem "\x27z.z\x27 does not exist"] ∧
      containsSub "\x27z.z\x27 does not exist" "not provided" = false := by
  exact ⟨rfl, rfl⟩

/-! ## Query-mapped parameter provider (`query_map.py`) -/

/-- One element produced by a `Query` against a record: a `(value, path-id)`
pair, or an exception value (queries yield exceptions instead of raising). -/
inductive QElem where
  | qval (v : PyVal) (pathId : String)
  | qexc (msg : String)

/-- `True` for exception elements. -/
def QElem.isExc : QElem → Bool
  | .qexc _ => true
  | _ => false

/-- A `_QueryIterable` as materialized by `itertools.product`: iterating it
yields the elements of the underlying query iterator, filtering out the
exceptions when `include_exceptions` is false. -/
def materializeSeq (raw : List QElem) (includeExceptions : Bool) : List QElem :=
  if includeExceptions then raw else raw.filter (fun e => !e.isExc)

/-- The `cur_exceptions` list collected while iterating a `_QueryIterable`:
every exception of the underlying iterator, in order. -/
def capturedExceptions (raw : List QElem) : List String :=
  raw.filterMap (fun e => match e with | .qexc msg => some msg | _ => none)

/-- `itertools.product`: the rightmost factor varies fastest. -/
def cartProd {α : Type} : List (List α) → List (List α)
  | [] => [[]]
  | xs :: rest => xs.flatMap (fun x => (cartProd rest).map (x :: ·))

/-- An item yielded by `QueryMappedValidator.param_sets`: a parameter
dictionary drawn from the Cartesian product, or a captured exception of a
required parameter re-emitted after the product. -/
inductive QuerySetItem where
  | qdict (d : List (String × QElem))
  | qerr (msg : String)

/-- `QueryMappedValidator.param_sets`: the Cartesian product of the
materialized per-parameter iterables (map order, exceptions filtered from
required parameters and kept for optional ones), followed by the captured
exceptions of every required parameter, in map order. -/
def paramSets (v : PValidator) (param_map : List (String × List QElem)) :
    List QuerySetItem :=
  let pools := param_map.map (fun pr =>
    (pr.1, materializeSeq pr.2 (decide (pr.1 ∈ optionalParamNames v))))
  (cartProd (pools.map Prod.snd)).map
      (fun combo => QuerySetItem.qdict ((pools.map Prod.fst).zip combo)) ++
    param_map.flatMap (fun pr =>
      if pr.1 ∈ optionalParamNames v then []
      else (capturedExceptions pr.2).map QuerySetItem.qerr)

/-- The parameter built by `provide` for one dict entry: an exception element
(which the source asserts to belong to an optional parameter, as required
ones were filtered from the product) degrades to the declared default with
`provided=False` and param id `"None"`; a value element is bound with its
path id and `provided=True`. -/
def buildQueryParam (v : PValidator) (mvId : Nat) (pr : String × QElem) :
    String × PParameter :=
  match pr.2 with
  | .qexc _ => (pr.1, ⟨mvId, pr.1, paramDefault v pr.1, "None", false⟩)
  | .qval value pathId => (pr.1, ⟨mvId, pr.1, value, pathId, true⟩)

/-- `QueryMappedValidator.provide`: transform each `param_sets` item in
order — a product dict becomes a `Parameters` object, an exception is yielded
unchanged. -/
def provideQuery (v : PValidator) (mvId : Nat)
    (param_map : List (String × List QElem)) : List PPItem :=
  (paramSets v param_map).map (fun item =>
    match item with
    | .qdict d => PPItem.paramsItem (d.map (buildQueryParam v mvId))
    | .qerr msg => PPItem.errItem msg)

/-- The claim's description of the query-mapped provide algorithm: first one
`Parameters` object per element of the Cartesian product of the per-parameter
sequences (exceptions excluded from required-parameter sequences, optional
exceptions degraded to unprovided defaults), afterwards each exception
captured in a required parameter's sequence as a standalone error value. -/
def specQueryProvide (v : PValidator) (mvId : Nat)
    (param_map : List (String × List QElem)) : List PPItem :=
  let pools := param_map.map (fun pr =>
    (pr.1, materializeSeq pr.2 (decide (pr.1 ∈ optionalParamNames v))))
  (cartProd (pools.map Prod.snd)).map (fun combo =>
      PPItem.paramsItem (((pools.map Prod.fst).zip combo).map (buildQueryParam v mvId))) ++
    param_map.flatMap (fun pr =>
      if pr.1 ∈ optionalParamNames v then []
      else (capturedExceptions pr.2).map PPItem.errItem)

theorem cartProd_of_nil_mem {α : Type} {ls : List (List α)} (h : [] ∈ ls) :
    cartProd ls = [] := by
  induction ls with
  | nil => simp at h
  | cons x rest ih =>
      rcases List.mem_cons.mp h with h1 | h2
      · rw [← h1]
        simp [cartProd]
      · simp [cartProd, ih h2]

/-- C6: `QueryMappedValidator.provide` yields first one `Parameters` object
per element of the Cartesian product of the per-parameter sequences (with
exceptions excluded from required-parameter sequences, and optional-parameter
exceptions degraded to `provided=False` with the declared default), then each
exception captured in a required parameter's sequence as a standalone error
value; in particular an empty Cartesian product yields no `Parameters`
object. -/
theorem query_provide_spec (v : PValidator) (mvId : Nat)
    (param_map : List (String × List QElem)) :
    provideQuery v mvId param_map = specQueryProvide v mvId param_map ∧
      ((∃ pr ∈ param_map,
          materializeSeq pr.2 (decide (pr.1 ∈ optionalParamNames v)) = []) →
        ∀ item ∈ provideQuery v mvId param_map, ∃ msg, item = PPItem.errItem msg) := by
  have hmain : provideQuery v mvId param_map = specQueryProvide v mvId param_map := by
    unfold provideQuery specQueryProvide paramSets
    rw [List.map_append, List.map_map, List.map_flatMap]
    congr 1
    apply List.flatMap_congr
    intro pr _
    by_cases hopt : pr.1 ∈ optionalParamNames v
    · simp [hopt]
    · simp only [hopt, if_false, List.map_map]
      rfl
  refine ⟨hmain, ?_⟩
  · rintro ⟨pr, hpr, hempty⟩ item hitem
    rw [hmain] at hitem
    unfold specQueryProvide at hitem
    dsimp only at hitem
    have hnil : ([] : List QElem) ∈ (param_map.map (fun pr =>
        (pr.1, materializeSeq pr.2 (decide (pr.1 ∈ optionalParamNames v))))).map Prod.snd := by
      rw [List.map_map]
      exact List.mem_map.mpr ⟨pr, hpr, hempty⟩
    rw [cartProd_of_nil_mem hnil] at hitem
    simp only [List.map_nil, List.nil_append] at hitem
    rcases List.mem_flatMap.mp hitem with ⟨entry, hentry, hin⟩
    by_cases hopt : entry.1 ∈ optionalParamNames v
    · simp [hopt] at hin
    · simp only [hopt, if_false] at hin
      rcases List.mem_map.mp hin with ⟨msg, _, hrfl⟩
      exact ⟨msg, hrfl.symm⟩

/-- Witness for C6: a required parameter whose query produced only an
exception empties the Cartesian product; every yielded item is an error
value. -/
theorem query_provide_spec_witness :
    ∃ msg, PPItem.errItem "y not provided" = PPItem.errItem msg := by
  have h := (query_provide_spec ⟨0, "check", [⟨"y", false, PyVal.vnone⟩], false⟩ 0
      [("y", [QElem.qexc "y not provided"])]).2
    ⟨("y", [QElem.qexc "y not provided"]), by simp, by rfl⟩
  exact h (PPItem.errItem "y not provided") (by
    show PPItem.errItem "y not provided" ∈
      provideQuery ⟨0, "check", [⟨"y", false, PyVal.vnone⟩], false⟩ 0
        [("y", [QElem.qexc "y not provided"])]
    rw [show provideQuery ⟨0, "check", [⟨"y", false, PyVal.vnone⟩], false⟩ 0
        [("y", [QElem.qexc "y not provided"])] =
      [PPItem.errItem "y not provided"] from rfl]
    exact List.mem_singleton.mpr rfl)

/-! ## Validation manager (`core/execution.py`) -/

/-- A registered mapped validator as the execution engine sees it: its
identity in the dependency graph, its display name, and whether its user
function is asynchronous. -/
structure MV where
  mvid : Nat
  name : String
  isAsync : Bool
deriving DecidableEq, Repr

/-- `_ExecutionState`: `FINISHED` is terminal regardless of success. -/
inductive ExecutionState where
  | PENDING
  | RUNNING
  | FINISHED
deriving DecidableEq, Repr

/-- `_ExecutionInfo`: the per-validator data stored by `register`
(the timeout is modelled in milliseconds). -/
structure ExecInfo where
  depends_on : List MV
  timeout : Option Nat
deriving DecidableEq, Repr

/-- The manager's registration state: the dependency graph (node list and
edge list, an edge pointing from a dependent to its dependency) and the
`validators` dict. -/
structure ManagerState where
  nodes : List MV
  edges : List (MV × MV)
  validators : List (MV × ExecInfo)
deriving DecidableEq, Repr

/-- `ValidationManager._dependency_graph_edges`: every dependency must
already be registered; the edge list to add is built in iteration order. -/
def edgesFor (validators : List (MV × ExecInfo)) (mv : MV) :
    List MV → Except String (List (MV × MV))
  | [] => .ok []
  | d :: rest =>
      if (alookup validators d).isNone then
        .error ("The specified dependency is not registered: " ++ d.name)
      else
        match edgesFor validators mv rest with
        | .ok es => .ok ((mv, d) :: es)
        | .error e => .error e

/-- `DiGraph.add_node`: a no-op when the node already exists. -/
def addNode (nodes : List MV) (mv : MV) : List MV :=
  if mv ∈ nodes then nodes else nodes ++ [mv]

/-- `DiGraph.add_edges_from`: existing edges are kept, new ones appended. -/
def addEdges (edges : List (MV × MV)) : List (MV × MV) → List (MV × MV)
  | [] => edges
  | e :: rest => addEdges (if e ∈ edges then edges else edges ++ [e]) rest

/-- `ValidationManager.register`: check the dependencies, store (overwrite)
the `_ExecutionInfo`, add the node and the edges. -/
def register (st : ManagerState) (mv : MV) (depends_on : List MV)
    (timeout : Option Nat) : Except String ManagerState :=
  match edgesFor st.validators mv depends_on with
  | .error e => .error e
  | .ok es =>
      .ok { nodes := addNode st.nodes mv,
            edges := addEdges st.edges es,
            validators := aupdate st.validators mv ⟨depends_on, timeout⟩ }

/-- A recorded `ValidationError`, reduced to the fields the claims are about:
the error id and the message detail. -/
structure VError where
  errorId : Nat
  messageDetail : String
deriving DecidableEq, Repr

/-- Per-record runtime state: the error handler's `excs` dict, the `states`
defaultdict (absent keys read as `PENDING`), and a trace of user-function
invocations. -/
structure RuntimeInfo where
  errors : List (MV × List VError)
  states : List (MV × ExecutionState)
  invocations : List MV
deriving DecidableEq, Repr

/-- Read `self.info.states[mv]` (a `defaultdict` with default `PENDING`). -/
def stateOf (r : RuntimeInfo) (mv : MV) : ExecutionState :=
  (alookup r.states mv).getD ExecutionState.PENDING

/-- Write `self.info.states[mv]`. -/
def setState (r : RuntimeInfo) (mv : MV) (s : ExecutionState) : RuntimeInfo :=
  { r with states := aupdate r.states mv s }

/-- Read `self.info.error_handler.excs[mv]` (empty when absent). -/
def errorsOf (r : RuntimeInfo) (mv : MV) : List VError :=
  (alookup r.errors mv).getD []

/-- `ErrorHandler.catch`: compute the error id — the custom id when one is
given, else the process-wide registry id of the cause's raise site — and
append the wrapped `ValidationError` to `excs[mapped_validator]`.  The
registry lookup is abstracted by `derive`, the deterministic map from a
raise-site identifier to its assigned id, whose implementation `getErrorId`
models above. -/
def catchE (derive : Identifier → Nat) (r : RuntimeInfo) (mv : MV) (msg : String)
    (causeSite : Identifier) (customId : Option Nat) : RuntimeInfo :=
  let errorId := match customId with
    | some c => c
    | none => derive causeSite
  { r with errors :=
      match alookup r.errors mv with
      | some es => aupdate r.errors mv (es ++ [⟨errorId, msg⟩])
      | none => r.errors ++ [(mv, [⟨errorId, msg⟩])] }

/-- The behavior of one user-function invocation in the modelled world:
it returns normally or raises from some site. -/
inductive InvokeOutcome where
  | ok
  | raises (site : Identifier) (msg : String)
deriving DecidableEq, Repr

/-- One element of a mapped validator's `provide` stream as the execution
loop consumes it: an exception value, or a `Parameters` object together with
its runtime type-check result, whether the invocation outlasts a configured
timeout, and the user code's outcome. -/
inductive ProvideItem where
  | exc (msg : String)
  | params (typeMismatch : Option String) (exceedsTimeout : Bool) (outcome : InvokeOutcome)
deriving DecidableEq, Repr

/-- The raise site of `TimeoutError` when `asyncio.timeout` expires: a fixed
location inside the asyncio library. -/
def timeoutRaiseSite : Identifier := ⟨"timeouts.py", "_on_timeout", 3⟩

/-- The raise site of engine-created cause exceptions (their ids are always
custom, so this site never reaches the registry). -/
def engineRaiseSite : Identifier := ⟨"execution.py", "_dependency_errored", 5⟩

/-- `", ".join(names)`. -/
def joinComma : List String → String
  | [] => ""
  | [s] => s
  | s :: rest => s ++ ", " ++ joinComma rest

/-- `str(timedelta.total_seconds())` for a timeout in milliseconds as it
appears in the timeout message: `100 ↦ "0.1"`, `1000 ↦ "1.0"`. -/
def msToSecondsStr (ms : Nat) : String :=
  let q := ms / 1000
  let r := ms % 1000
  if r = 0 then toString q ++ ".0"
  else
    let digits := (toString (1000 + r)).data.drop 1
    let trimmed := (digits.reverse.dropWhile (fun c => c == '0')).reverse
    toString q ++ "." ++ String.mk trimmed

/-- `ValidationManager._dependency_errored`: if any direct dependency has
recorded errors, record the abandonment error (custom id 2) naming the
failing dependencies and report true. -/
def dependencyErrored (derive : Identifier → Nat) (info : ExecInfo)
    (r : RuntimeInfo) (mv : MV) : Bool × RuntimeInfo :=
  let failing := info.depends_on.filter (fun d => (alookup r.errors d).isSome)
  if failing.length > 0 then
    (true,
      catchE derive r mv
        ("Execution abandoned due to failing dependent validators: " ++
          joinComma (failing.map MV.name))
        engineRaiseSite (some 2))
  else (false, r)

/-- One iteration of the provide loop shared by `_execute_async_validator`
and `_execute_sync_validator`: `_are_params_ok` records provider exceptions
with custom id 1 and runtime type mismatches with custom id 5; a good
`Parameters` object leads to a user-function invocation wrapped in
`pokemon_catcher` under the optional timeout.  Both call sites invoke
`pokemon_catcher` without a custom error id, so the timeout error and
arbitrary user errors both get registry-derived ids. -/
def runProvideItem (derive : Identifier → Nat) (info : ExecInfo) (mv : MV)
    (r : RuntimeInfo) : ProvideItem → RuntimeInfo
  | .exc msg => catchE derive r mv msg engineRaiseSite (some 1)
  | .params (some mismatchMsg) _ _ =>
      catchE derive r mv mismatchMsg engineRaiseSite (some 5)
  | .params none exceedsT outcome =>
      let r1 := { r with invocations := r.invocations ++ [mv] }
      match info.timeout, exceedsT with
      | some ms, true =>
          catchE derive r1 mv
            ("Timeout (" ++ msToSecondsStr ms ++ "s) during execution")
            timeoutRaiseSite none
      | _, _ =>
          match outcome with
          | .ok => r1
          | .raises site msg => catchE derive r1 mv msg site none

/-- The shared body of `_execute_async_validator` (after its dependency
wait) and `_execute_sync_validator`: abandon with the id-2 error when a
dependency recorded errors — returning without touching the state — else run
the provide loop and mark the validator `FINISHED`. -/
def executeValidatorBody (derive : Identifier → Nat) (behavior : List ProvideItem)
    (info : ExecInfo) (r : RuntimeInfo) (mv : MV) : RuntimeInfo :=
  match dependencyErrored derive info r mv with
  | (true, r1) => r1
  | (false, _) =>
      let r2 := behavior.foldl (runProvideItem derive info mv) r
      setState r2 mv ExecutionState.FINISHED

/-- `ValidationManager._execute_async_validator`.  Its initial
`asyncio.wait` on still-running dependency tasks is a no-op in the
sequential model: a task's dependencies always precede it in the queue and
have completed by the time its body runs. -/
def executeAsyncValidator (derive : Identifier → Nat) (behavior : List ProvideItem)
    (info : ExecInfo) (r : RuntimeInfo) (mv : MV) : RuntimeInfo :=
  executeValidatorBody derive behavior info r mv

/-- `ValidationManager._execute_sync_validator`. -/
def executeSyncValidator (derive : Identifier → Nat) (behavior : List ProvideItem)
    (info : ExecInfo) (r : RuntimeInfo) (mv : MV) : RuntimeInfo :=
  executeValidatorBody derive behavior info r mv

/-- One entry of the dispatch log: the visited node, whether it was submitted
to the task group, and the snapshot of the states map at dispatch time. -/
structure DispatchEntry where
  mv : MV
  asTask : Bool
  statesAtDispatch : List (MV × ExecutionState)
deriving DecidableEq, Repr

/-- The state threaded through the loop of `_execute_validators`. -/
structure LoopState where
  r : RuntimeInfo
  queue : List MV
  log : List DispatchEntry
deriving DecidableEq, Repr

/-- The loop body of `_execute_validators` for one node: mark it `RUNNING`,
compute its still-running dependencies, then either create a task (async
user function, or some dependency still running) or execute inline. -/
def mainLoopStep (derive : Identifier → Nat) (behaviorOf : MV → List ProvideItem)
    (validators : List (MV × ExecInfo)) (ls : LoopState) (mv : MV) : LoopState :=
  let r0 := setState ls.r mv ExecutionState.RUNNING
  let info := (alookup validators mv).getD ⟨[], none⟩
  let runningDeps := info.depends_on.filter
    (fun d => stateOf r0 d == ExecutionState.RUNNING)
  if mv.isAsync || !runningDeps.isEmpty then
    { r := r0, queue := ls.queue ++ [mv],
      log := ls.log ++ [⟨mv, true, r0.states⟩] }
  else
    { r := executeSyncValidator derive (behaviorOf mv) info r0 mv,
      queue := ls.queue,
      log := ls.log ++ [⟨mv, false, r0.states⟩] }

/-- The outcome of validating one record: the final runtime state, the
dispatch log and the order in which tasks were created. -/
structure RecordResult where
  runtime : RuntimeInfo
  dispatchLog : List DispatchEntry
  taskQueue : List MV
deriving DecidableEq, Repr

/-- `_execute_validators` followed by the `TaskGroup` exit: the main loop
walks the execution order; the tasks it created run afterwards, in creation
order.  (The engine's own awaits on the inline path complete without
yielding control, so created tasks first run when the task group is
awaited.) -/
def validateRecord (derive : Identifier → Nat) (behaviorOf : MV → List ProvideItem)
    (validators : List (MV × ExecInfo)) (order : List MV) : RecordResult :=
  let ls := order.foldl (mainLoopStep derive behaviorOf validators) ⟨⟨[], [], []⟩, [], []⟩
  let rfinal := ls.queue.foldl (fun r mv =>
    executeAsyncValidator derive (behaviorOf mv)
      ((alookup validators mv).getD ⟨[], none⟩) r mv) ls.r
  ⟨rfinal, ls.log, ls.queue⟩

/-- A dependencies-first linearization of the graph nodes, modelling
`reversed(nx.topological_sort(dependency_graph))` (the tie order is
deterministic but unspecified): repeatedly place the first remaining node
whose dependencies are all placed. -/
def topoOrderGo (validators : List (MV × ExecInfo)) :
    Nat → List MV → List MV → List MV
  | 0, placed, remaining => placed ++ remaining
  | fuel + 1, placed, remaining =>
      match remaining.find? (fun mv =>
          ((alookup validators mv).getD ⟨[], none⟩).depends_on.all
            (fun d => decide (d ∈ placed))) with
      | some mv => topoOrderGo validators fuel (placed ++ [mv]) (remaining.erase mv)
      | none => placed ++ remaining

/-- The execution order computed on entry to `validate`. -/
def topoOrder (st : ManagerState) : List MV :=
  topoOrderGo st.validators st.nodes.length [] st.nodes

/-- `ValidationManager.validate`: validate each record in turn (records are
processed sequentially; a fresh runtime is created per record), collecting
one error handler per record — the handler dict is keyed by the record, so a
repeated record overwrites its entry. -/
def validateAll (derive : Identifier → Nat)
    (behaviorOf : Nat → MV → List ProvideItem) (st : ManagerState)
    (records : List Nat) : List (Nat × List (MV × List VError)) :=
  records.foldl (fun handlers ds =>
    aupdate handlers ds
      (validateRecord derive (behaviorOf ds) st.validators (topoOrder st)).runtime.errors)
    []

/-- `ValidationResult._determine_succeeds`: a record whose `excs` dict is
non-empty goes to `data_set_errors` with its errors flattened in dict order;
otherwise it is appended to `succeeded_data_sets`. -/
def determineSucceeds (handlers : List (Nat × List (MV × List VError))) :
    List Nat × List (Nat × List VError) :=
  handlers.foldl (fun acc pr =>
    if pr.2.length > 0 then (acc.1, acc.2 ++ [(pr.1, pr.2.flatMap Prod.snd)])
    else (acc.1 ++ [pr.1], acc.2)) ([], [])

theorem alookup_aupdate_self {α β : Type} [DecidableEq α]
    (l : List (α × β)) (k : α) (v : β) : alookup (aupdate l k v) k = some v := by
  induction l with
  | nil => simp [aupdate, alookup]
  | cons hd tl ih =>
      simp only [aupdate]
      by_cases hk : k = hd.1
      · simp [alookup, hk]
      · simp only [hk, if_false, alookup]
        exact ih

theorem mem_aupdate {α β : Type} [DecidableEq α]
    {l : List (α × β)} {k : α} {v : β} {pr : α × β} (h : pr ∈ aupdate l k v) :
    pr = (k, v) ∨ pr ∈ l := by
  induction l with
  | nil => simpa [aupdate] using h
  | cons hd tl ih =>
      simp only [aupdate] at h
      by_cases hk : k = hd.1
      · rw [if_pos hk] at h
        rcases List.mem_cons.mp h with h1 | h2
        · left
          rw [h1, hk]
        · right
          exact List.mem_cons_of_mem _ h2
      · rw [if_neg hk] at h
        rcases List.mem_cons.mp h with h1 | h2
        · right
          rw [h1]
          exact List.mem_cons_self _ _
        · rcases ih h2 with h3 | h4
          · exact Or.inl h3
          · exact Or.inr (List.mem_cons_of_mem _ h4)

theorem mem_addNode_self (nodes : List MV) (mv : MV) : mv ∈ addNode nodes mv := by
  unfold addNode
  by_cases h : mv ∈ nodes
  · rwa [if_pos h]
  · rw [if_neg h]
    simp

theorem addNode_of_mem {nodes : List MV} {mv : MV} (h : mv ∈ nodes) :
    addNode nodes mv = nodes := by
  unfold addNode
  rw [if_pos h]

theorem mem_addEdges (es : List (MV × MV)) :
    ∀ (edges : List (MV × MV)) (e : MV × MV), e ∈ edges → e ∈ addEdges edges es := by
  induction es with
  | nil => intro edges e he; simpa [addEdges] using he
  | cons hd tl ih =>
      intro edges e he
      simp only [addEdges]
      apply ih
      by_cases hmem : hd ∈ edges
      · rwa [if_pos hmem]
      · rw [if_neg hmem]
        exact List.mem_append_left _ he

theorem edgesFor_ok (validators : List (MV × ExecInfo)) (mv : MV) :
    ∀ deps : List MV, (∀ d ∈ deps, (alookup validators d).isSome) →
      ∃ es, edgesFor validators mv deps = .ok es := by
  intro deps hdeps
  induction deps with
  | nil => exact ⟨[], rfl⟩
  | cons d rest ih =>
      have hd := hdeps d (List.mem_cons_self _ _)
      obtain ⟨es, hes⟩ := ih (fun x hx => hdeps x (List.mem_cons_of_mem _ hx))
      refine ⟨(mv, d) :: es, ?_⟩
      simp only [edgesFor]
      have hnone : ¬(alookup validators d).isNone = true := by
        rw [Option.isNone_iff_eq_none]
        rcases Option.isSome_iff_exists.mp hd with ⟨w, hw⟩
        simp [hw]
      rw [if_neg hnone, hes]

/-- C10: registering an already-registered mapped validator again (with
registered dependencies) does not raise and is not a no-op on its metadata:
the stored dependency set and timeout become those of the latest call, the
node set of the dependency graph is unchanged, and every previously added
edge is retained. -/
theorem register_twice_spec (st st1 : ManagerState) (mv : MV)
    (deps1 deps2 : List MV) (t1 t2 : Option Nat)
    (h1 : register st mv deps1 t1 = .ok st1)
    (hdeps : ∀ d ∈ deps2, (alookup st1.validators d).isSome) :
    ∃ st2, register st1 mv deps2 t2 = .ok st2 ∧
      alookup st2.validators mv = some ⟨deps2, t2⟩ ∧
      st2.nodes = st1.nodes ∧
      ∀ e ∈ st1.edges, e ∈ st2.edges := by
  obtain ⟨es2, hes2⟩ := edgesFor_ok st1.validators mv deps2 hdeps
  have hnodes : mv ∈ st1.nodes := by
    unfold register at h1
    cases he : edgesFor st.validators mv deps1 with
    | error e => rw [he] at h1; cases h1
    | ok es =>
        rw [he] at h1
        cases h1
        exact mem_addNode_self _ _
  refine ⟨_, by unfold register; rw [hes2], ?_, ?_, ?_⟩
  · exact alookup_aupdate_self _ _ _
  · exact addNode_of_mem hnodes
  · intro e he
    exact mem_addEdges es2 st1.edges e he

/-- Witness for C10: register a node, then register it again with a new
timeout; the metadata is overwritten and the graph is unchanged. -/
theorem register_twice_spec_witness :
    ∃ st2, register ⟨[⟨0, "A", false⟩], [], [(⟨0, "A", false⟩, ⟨[], none⟩)]⟩
          ⟨0, "A", false⟩ [] (some 500) = .ok st2 ∧
        alookup st2.validators ⟨0, "A", false⟩ = some ⟨[], some 500⟩ ∧
        st2.nodes = [⟨0, "A", false⟩] ∧
        ∀ e ∈ ([] : List (MV × MV)), e ∈ st2.edges := by
  have h := register_twice_spec ⟨[], [], []⟩
    ⟨[⟨0, "A", false⟩], [], [(⟨0, "A", false⟩, ⟨[], none⟩)]⟩
    ⟨0, "A", false⟩ [] [] none (some 500) (by rfl) (by intro d hd; cases hd)
  exact h

theorem filter_not_isEmpty_eq_any {α : Type} (p : α → Bool) (l : List α) :
    (!(l.filter p).isEmpty) = l.any p := by
  induction l with
  | nil => rfl
  | cons a t ih => cases hpa : p a <;> simp [List.filter_cons, hpa, ih]

theorem mainLoop_dispatch_invariant (derive : Identifier → Nat)
    (behaviorOf : MV → List ProvideItem) (validators : List (MV × ExecInfo)) :
    ∀ (order : List MV) (ls0 : LoopState),
      (∀ e ∈ ls0.log, e.asTask = (e.mv.isAsync ||
        ((alookup validators e.mv).getD ⟨[], none⟩).depends_on.any
          (fun d => (alookup e.statesAtDispatch d).getD ExecutionState.PENDING ==
            ExecutionState.RUNNING))) →
      (ls0.log.filter (fun e => e.asTask)).map (fun e => e.mv) = ls0.queue →
      (∀ e ∈ (order.foldl (mainLoopStep derive behaviorOf validators) ls0).log,
        e.asTask = (e.mv.isAsync ||
          ((alookup validators e.mv).getD ⟨[], none⟩).depends_on.any
            (fun d => (alookup e.statesAtDispatch d).getD ExecutionState.PENDING ==
              ExecutionState.RUNNING))) ∧
        ((order.foldl (mainLoopStep derive behaviorOf validators) ls0).log.filter
            (fun e => e.asTask)).map (fun e => e.mv) =
          (order.foldl (mainLoopStep derive behaviorOf validators) ls0).queue := by
  intro order
  induction order with
  | nil => intro ls0 hlog hq; exact ⟨hlog, hq⟩
  | cons mv rest ih =>
      intro ls0 hlog hq
      simp only [List.foldl_cons]
      apply ih
      · -- the new log entry satisfies the dispatch predicate
        intro e he
        unfold mainLoopStep at he
        by_cases hcond : ((mv.isAsync ||
            !(((alookup validators mv).getD ⟨[], none⟩).depends_on.filter
              (fun d => stateOf (setState ls0.r mv ExecutionState.RUNNING) d ==
                ExecutionState.RUNNING)).isEmpty) = true)
        · rw [if_pos hcond] at he
          rcases List.mem_append.mp he with hold | hnew
          · exact hlog e hold
          · simp only [List.mem_singleton] at hnew
            rw [hnew]
            simp only
            rw [← filter_not_isEmpty_eq_any]
            exact hcond.symm
        · rw [if_neg hcond] at he
          rcases List.mem_append.mp he with hold | hnew
          · exact hlog e hold
          · simp only [List.mem_singleton] at hnew
            rw [hnew]
            simp only
            rw [← filter_not_isEmpty_eq_any]
            have hdisj : (mv.isAsync ||
                !(((alookup validators mv).getD ⟨[], none⟩).depends_on.filter
                  (fun d => stateOf (setState ls0.r mv ExecutionState.RUNNING) d ==
                    ExecutionState.RUNNING)).isEmpty) = false := by
              simpa using hcond
            exact hdisj.symm
      · -- the queue stays the image of the as-task log entries
        unfold mainLoopStep
        by_cases hcond : ((mv.isAsync ||
            !(((alookup validators mv).getD ⟨[], none⟩).depends_on.filter
              (fun d => stateOf (setState ls0.r mv ExecutionState.RUNNING) d ==
                ExecutionState.RUNNING)).isEmpty) = true)
        · rw [if_pos hcond]
          simp only [List.filter_append, List.map_append, hq, List.filter_cons]
          simp
        · rw [if_neg hcond]
          simp only [List.filter_append, List.map_append, hq, List.filter_cons]
          simp

/-- C7: during a record's execution a node is dispatched as a background task
iff its user function is asynchronous or at least one of its dependencies is
in state RUNNING at dispatch time; all other nodes run inline — the task
queue is exactly the sequence of as-task dispatches. -/
theorem scheduling_rule (derive : Identifier → Nat) (behaviorOf : MV → List ProvideItem)
    (validators : List (MV × ExecInfo)) (order : List MV) :
    (∀ e ∈ (validateRecord derive behaviorOf validators order).dispatchLog,
        e.asTask = (e.mv.isAsync ||
          ((alookup validators e.mv).getD ⟨[], none⟩).depends_on.any
            (fun d => (alookup e.statesAtDispatch d).getD ExecutionState.PENDING ==
              ExecutionState.RUNNING))) ∧
      ((validateRecord derive behaviorOf validators order).dispatchLog.filter
          (fun e => e.asTask)).map (fun e => e.mv) =
        (validateRecord derive behaviorOf validators order).taskQueue := by
  have h := mainLoop_dispatch_invariant derive behaviorOf validators order
    ⟨⟨[], [], []⟩, [], []⟩ (by intro e he; cases he) rfl
  exact ⟨h.1, h.2⟩

/-- Witness for C7: a single asynchronous validator is dispatched as a task;
its dispatch entry satisfies the scheduling rule and the task queue matches
the log. -/
theorem scheduling_rule_witness :
    (⟨⟨0, "A", true⟩, true, [(⟨0, "A", true⟩, ExecutionState.RUNNING)]⟩ : DispatchEntry).asTask =
      ((⟨0, "A", true⟩ : MV).isAsync ||
        ((alookup [((⟨0, "A", true⟩ : MV), (⟨[], none⟩ : ExecInfo))] ⟨0, "A", true⟩).getD
            ⟨[], none⟩).depends_on.any
          (fun d => (alookup [((⟨0, "A", true⟩ : MV), ExecutionState.RUNNING)] d).getD
              ExecutionState.PENDING == ExecutionState.RUNNING)) := by
  have h := (scheduling_rule (fun _ => 1234567) (fun _ => [])
    [(⟨0, "A", true⟩, ⟨[], none⟩)] [⟨0, "A", true⟩]).1
    ⟨⟨0, "A", true⟩, true, [(⟨0, "A", true⟩, ExecutionState.RUNNING)]⟩
    (by
      rw [show (validateRecord (fun _ => 1234567) (fun _ => [])
          [(⟨0, "A", true⟩, ⟨[], none⟩)] [⟨0, "A", true⟩]).dispatchLog =
        [⟨⟨0, "A", true⟩, true, [(⟨0, "A", true⟩, ExecutionState.RUNNING)]⟩] from rfl]
      exact List.mem_singleton.mpr rfl)
  exact h

theorem catchE_errors_self (derive : Identifier → Nat) (r : RuntimeInfo) (mv : MV)
    (msg : String) (site : Identifier) (cid : Option Nat) :
    errorsOf (catchE derive r mv msg site cid) mv =
      errorsOf r mv ++
        [⟨match cid with | some c => c | none => derive site, msg⟩] := by
  unfold catchE errorsOf
  cases hl : alookup r.errors mv with
  | some es =>
      simp only [hl, Option.getD_some]
      rw [alookup_aupdate_self]
      rfl
  | none =>
      simp only [hl, Option.getD_none]
      rw [alookup_append_right _ _ _ hl]
      rfl

/-- C2 (amended): a node one of whose direct dependencies has recorded
errors records exactly one synthetic abandonment error with custom id 2,
does not invoke its user function, and leaves the state map untouched — so
it stays RUNNING instead of being marked FINISHED (the early return skips
the FINISHED assignment); a node with no errored dependency is marked
FINISHED by its execution, and the sync and async execution paths agree. -/
theorem dependency_abandonment_spec (derive : Identifier → Nat)
    (behavior : List ProvideItem) (info : ExecInfo) (r : RuntimeInfo) (mv : MV) :
    executeAsyncValidator derive behavior info r mv =
        executeSyncValidator derive behavior info r mv ∧
      ((∃ d ∈ info.depends_on, (alookup r.errors d).isSome) →
        errorsOf (executeSyncValidator derive behavior info r mv) mv =
            errorsOf r mv ++
              [⟨2, "Execution abandoned due to failing dependent validators: " ++
                joinComma ((info.depends_on.filter
                  (fun d => (alookup r.errors d).isSome)).map MV.name)⟩] ∧
          (executeSyncValidator derive behavior info r mv).invocations = r.invocations ∧
          (executeSyncValidator derive behavior info r mv).states = r.states) ∧
      ((∀ d ∈ info.depends_on, alookup r.errors d = none) →
        stateOf (executeSyncValidator derive behavior info r mv) mv =
          ExecutionState.FINISHED) := by
  refine ⟨rfl, ?_, ?_⟩
  · rintro ⟨d, hd, hsome⟩
    have hmem : d ∈ info.depends_on.filter (fun d => (alookup r.errors d).isSome) :=
      List.mem_filter.mpr ⟨hd, hsome⟩
    have hlen : (info.depends_on.filter
        (fun d => (alookup r.errors d).isSome)).length > 0 :=
      List.length_pos.mpr (List.ne_nil_of_mem hmem)
    have hde : dependencyErrored derive info r mv =
        (true, catchE derive r mv
          ("Execution abandoned due to failing dependent validators: " ++
            joinComma ((info.depends_on.filter
              (fun d => (alookup r.errors d).isSome)).map MV.name))
          engineRaiseSite (some 2)) := by
      unfold dependencyErrored
      rw [if_pos hlen]
    unfold executeSyncValidator executeValidatorBody
    rw [hde]
    refine ⟨?_, rfl, rfl⟩
    rw [catchE_errors_self]
  · intro hnone
    have hfe : info.depends_on.filter (fun d => (alookup r.errors d).isSome) = [] := by
      rw [List.filter_eq_nil_iff]
      intro d hd
      rw [hnone d hd]
      simp
    have hde : dependencyErrored derive info r mv = (false, r) := by
      unfold dependencyErrored
      rw [hfe]
      simp
    unfold executeSyncValidator executeValidatorBody
    rw [hde]
    unfold stateOf setState
    simp only
    rw [alookup_aupdate_self]
    rfl

/-- Witness for C2: a node whose single dependency has a recorded error gets
the id-2 abandonment error, no invocation, and an unchanged state map. -/
theorem dependency_abandonment_spec_witness :
    errorsOf (executeSyncValidator (fun _ => 1234567)
          [ProvideItem.params none false InvokeOutcome.ok]
          ⟨[⟨0, "F", false⟩], none⟩
          ⟨[(⟨0, "F", false⟩, [⟨1234567, "boom"⟩])], [], []⟩ ⟨1, "G", false⟩)
        ⟨1, "G", false⟩ =
      [⟨2, "Execution abandoned due to failing dependent validators: F"⟩] ∧
      (executeSyncValidator (fun _ => 1234567)
          [ProvideItem.params none false InvokeOutcome.ok]
          ⟨[⟨0, "F", false⟩], none⟩
          ⟨[(⟨0, "F", false⟩, [⟨1234567, "boom"⟩])], [], []⟩ ⟨1, "G", false⟩).invocations =
        [] := by
  have h := (dependency_abandonment_spec (fun _ => 1234567)
    [ProvideItem.params none false InvokeOutcome.ok]
    ⟨[⟨0, "F", false⟩], none⟩
    ⟨[(⟨0, "F", false⟩, [⟨1234567, "boom"⟩])], [], []⟩ ⟨1, "G", false⟩).2.1
    ⟨⟨0, "F", false⟩, by simp, by rfl⟩
  exact ⟨h.1, h.2.1⟩

/-- Counterexample for C2 as stated: validator `F` raises and `G` depends on
`F`; when `validate` returns, `G` has the id-2 abandonment error, its user
function was not invoked, but its execution state is RUNNING, not
FINISHED. -/
theorem dependency_abandonment_counterexample :
    stateOf (validateRecord (fun _ => 1234567)
          (fun mv => if mv.mvid = 0
            then [ProvideItem.params none false
              (InvokeOutcome.raises ⟨"t.py", "check_fail", 1⟩ "boom")]
            else [ProvideItem.params none false InvokeOutcome.ok])
          [(⟨0, "F", false⟩, ⟨[], none⟩), (⟨1, "G", false⟩, ⟨[⟨0, "F", false⟩], none⟩)]
          (topoOrder ⟨[⟨0, "F", false⟩, ⟨1, "G", false⟩],
            [(⟨1, "G", false⟩, ⟨0, "F", false⟩)],
            [(⟨0, "F", false⟩, ⟨[], none⟩),
              (⟨1, "G", false⟩, ⟨[⟨0, "F", false⟩], none⟩)]⟩)).runtime
        ⟨1, "G", false⟩ ≠ ExecutionState.FINISHED ∧
      errorsOf (validateRecord (fun _ => 1234567)
          (fun mv => if mv.mvid = 0
            then [ProvideItem.params none false
              (InvokeOutcome.raises ⟨"t.py", "check_fail", 1⟩ "boom")]
            else [ProvideItem.params none false InvokeOutcome.ok])
          [(⟨0, "F", false⟩, ⟨[], none⟩), (⟨1, "G", false⟩, ⟨[⟨0, "F", false⟩], none⟩)]
          (topoOrder ⟨[⟨0, "F", false⟩, ⟨1, "G", false⟩],
            [(⟨1, "G", false⟩, ⟨0, "F", false⟩)],
            [(⟨0, "F", false⟩, ⟨[], none⟩),
              (⟨1, "G", false⟩, ⟨[⟨0, "F", false⟩], none⟩)]⟩)).runtime
        ⟨1, "G", false⟩ =
        [⟨2, "Execution abandoned due to failing dependent validators: F"⟩] ∧
      ⟨1, "G", false⟩ ∉ (validateRecord (fun _ => 1234567)
          (fun mv => if mv.mvid = 0
            then [ProvideItem.params none false
              (InvokeOutcome.raises ⟨"t.py", "check_fail", 1⟩ "boom")]
            else [ProvideItem.params none false InvokeOutcome.ok])
          [(⟨0, "F", false⟩, ⟨[], none⟩), (⟨1, "G", false⟩, ⟨[⟨0, "F", false⟩], none⟩)]
          (topoOrder ⟨[⟨0, "F", false⟩, ⟨1, "G", false⟩],
            [(⟨1, "G", false⟩, ⟨0, "F", false⟩)],
            [(⟨0, "F", false⟩, ⟨[], none⟩),
              (⟨1, "G", false⟩, ⟨[⟨0, "F", false⟩], none⟩)]⟩)).runtime.invocations := by
  refine ⟨by decide, by decide, by decide⟩

/-- C1 (evaluation at the failing input): a registered validator with a
100 ms timeout whose invocation does not finish in time gets exactly one
recorded error, whose message contains "Timeout (0.1s) during execution",
and the overall `validate` run is not aborted — the other registered
validator is still invoked and every state reaches FINISHED.  However, the
error id is the registry-derived id of the `TimeoutError` raise site (the
two `pokemon_catcher` call sites pass no custom error id), a seven-digit
value and therefore never the reserved id 3. -/
theorem timeout_error_gets_derived_id (derive : Identifier → Nat)
    (hrange : ∀ i, 1000000 ≤ derive i) :
    errorsOf (validateRecord derive
          (fun mv => if mv.mvid = 0 then [ProvideItem.params none true InvokeOutcome.ok]
            else [ProvideItem.params none false InvokeOutcome.ok])
          [(⟨0, "check_x_expensive", true⟩, ⟨[], some 100⟩),
            (⟨1, "check_y", false⟩, ⟨[], none⟩)]
          [⟨0, "check_x_expensive", true⟩, ⟨1, "check_y", false⟩]).runtime
        ⟨0, "check_x_expensive", true⟩ =
      [⟨derive timeoutRaiseSite, "Timeout (0.1s) during execution"⟩] ∧
      (∀ e ∈ errorsOf (validateRecord derive
          (fun mv => if mv.mvid = 0 then [ProvideItem.params none true InvokeOutcome.ok]
            else [ProvideItem.params none false InvokeOutcome.ok])
          [(⟨0, "check_x_expensive", true⟩, ⟨[], some 100⟩),
            (⟨1, "check_y", false⟩, ⟨[], none⟩)]
          [⟨0, "check_x_expensive", true⟩, ⟨1, "check_y", false⟩]).runtime
          ⟨0, "check_x_expensive", true⟩, e.errorId ≠ 3) ∧
      (validateRecord derive
          (fun mv => if mv.mvid = 0 then [ProvideItem.params none true InvokeOutcome.ok]
            else [ProvideItem.params none false InvokeOutcome.ok])
          [(⟨0, "check_x_expensive", true⟩, ⟨[], some 100⟩),
            (⟨1, "check_y", false⟩, ⟨[], none⟩)]
          [⟨0, "check_x_expensive", true⟩, ⟨1, "check_y", false⟩]).runtime.invocations =
        [⟨1, "check_y", false⟩, ⟨0, "check_x_expensive", true⟩] ∧
      stateOf (validateRecord derive
          (fun mv => if mv.mvid = 0 then [ProvideItem.params none true InvokeOutcome.ok]
            else [ProvideItem.params none false InvokeOutcome.ok])
          [(⟨0, "check_x_expensive", true⟩, ⟨[], some 100⟩),
            (⟨1, "check_y", false⟩, ⟨[], none⟩)]
          [⟨0, "check_x_expensive", true⟩, ⟨1, "check_y", false⟩]).runtime
        ⟨1, "check_y", false⟩ = ExecutionState.FINISHED := by
  refine ⟨rfl, ?_, rfl, rfl⟩
  intro e he
  rw [show errorsOf (validateRecord derive
      (fun mv => if mv.mvid = 0 then [ProvideItem.params none true InvokeOutcome.ok]
        else [ProvideItem.params none false InvokeOutcome.ok])
      [(⟨0, "check_x_expensive", true⟩, ⟨[], some 100⟩),
        (⟨1, "check_y", false⟩, ⟨[], none⟩)]
      [⟨0, "check_x_expensive", true⟩, ⟨1, "check_y", false⟩]).runtime
      ⟨0, "check_x_expensive", true⟩ =
    [⟨derive timeoutRaiseSite, "Timeout (0.1s) during execution"⟩] from rfl] at he
  rcases List.mem_singleton.mp he with rfl
  intro h3
  have h3d : derive timeoutRaiseSite = 3 := h3
  have := hrange timeoutRaiseSite
  omega

/-- Witness for C1's evaluation theorem at a concrete registry function. -/
theorem timeout_error_gets_derived_id_witness :
    errorsOf (validateRecord (fun _ => 1234567)
          (fun mv => if mv.mvid = 0 then [ProvideItem.params none true InvokeOutcome.ok]
            else [ProvideItem.params none false InvokeOutcome.ok])
          [(⟨0, "check_x_expensive", true⟩, ⟨[], some 100⟩),
            (⟨1, "check_y", false⟩, ⟨[], none⟩)]
          [⟨0, "check_x_expensive", true⟩, ⟨1, "check_y", false⟩]).runtime
        ⟨0, "check_x_expensive", true⟩ =
      [⟨(fun _ => 1234567 : Identifier → Nat) timeoutRaiseSite,
        "Timeout (0.1s) during execution"⟩] :=
  (timeout_error_gets_derived_id (fun _ => 1234567) (fun _ => by norm_num)).1

theorem foldl_preserves {α σ : Type} {P : σ → Prop} {f : σ → α → σ}
    (hstep : ∀ s a, P s → P (f s a)) :
    ∀ (l : List α) (s : σ), P s → P (l.foldl f s) := by
  intro l
  induction l with
  | nil => intro s hs; exact hs
  | cons a t ih => intro s hs; exact ih _ (hstep s a hs)

/-- Every entry of the error handler's `excs` dict is non-empty: `catch` only
creates an entry when appending an error to it. -/
def errorsWF (r : RuntimeInfo) : Prop := ∀ pr ∈ r.errors, pr.2 ≠ []

theorem catchE_errorsWF {derive : Identifier → Nat} {r : RuntimeInfo} {mv : MV}
    {msg : String} {site : Identifier} {cid : Option Nat} (h : errorsWF r) :
    errorsWF (catchE derive r mv msg site cid) := by
  intro pr hpr
  unfold catchE at hpr
  simp only at hpr
  cases hl : alookup r.errors mv with
  | some es =>
      rw [hl] at hpr
      rcases mem_aupdate hpr with h1 | h2
      · rw [h1]
        simp
      · exact h pr h2
  | none =>
      rw [hl] at hpr
      rcases List.mem_append.mp hpr with h1 | h2
      · exact h pr h1
      · simp only [List.mem_singleton] at h2
        rw [h2]
        simp

theorem dependencyErrored_inv (derive : Identifier → Nat) (info : ExecInfo)
    (r : RuntimeInfo) (mv : MV) :
    dependencyErrored derive info r mv = (false, r) ∨
      ∃ msg, dependencyErrored derive info r mv =
        (true, catchE derive r mv msg engineRaiseSite (some 2)) := by
  unfold dependencyErrored
  by_cases h : (info.depends_on.filter (fun d => (alookup r.errors d).isSome)).length > 0
  · right
    exact ⟨_, by rw [if_pos h]⟩
  · left
    rw [if_neg h]

theorem runProvideItem_errorsWF {derive : Identifier → Nat} {info : ExecInfo}
    {mv : MV} {r : RuntimeInfo} {item : ProvideItem} (h : errorsWF r) :
    errorsWF (runProvideItem derive info mv r item) := by
  cases item with
  | exc msg => exact catchE_errorsWF h
  | params tm et oc =>
      cases tm with
      | some m => exact catchE_errorsWF h
      | none =>
          have h1 : errorsWF ({ r with invocations := r.invocations ++ [mv] }) := h
          unfold runProvideItem
          cases info.timeout with
          | some ms =>
              cases et with
              | true => exact catchE_errorsWF h1
              | false =>
                  cases oc with
                  | ok => exact h1
                  | raises site msg => exact catchE_errorsWF h1
          | none =>
              cases et with
              | true =>
                  cases oc with
                  | ok => exact h1
                  | raises site msg => exact catchE_errorsWF h1
              | false =>
                  cases oc with
                  | ok => exact h1
                  | raises site msg => exact catchE_errorsWF h1

theorem executeValidatorBody_errorsWF {derive : Identifier → Nat}
    {behavior : List ProvideItem} {info : ExecInfo} {r : RuntimeInfo} {mv : MV}
    (h : errorsWF r) : errorsWF (executeValidatorBody derive behavior info r mv) := by
  unfold executeValidatorBody
  rcases dependencyErrored_inv derive info r mv with hde | ⟨msg, hde⟩
  · rw [hde]
    have hf : errorsWF (behavior.foldl (runProvideItem derive info mv) r) :=
      foldl_preserves (fun s a hs => runProvideItem_errorsWF hs) behavior r h
    exact fun pr hpr => hf pr hpr
  · rw [hde]
    exact catchE_errorsWF h

theorem validateRecord_errorsWF (derive : Identifier → Nat)
    (behaviorOf : MV → List ProvideItem) (validators : List (MV × ExecInfo))
    (order : List MV) : errorsWF (validateRecord derive behaviorOf validators order).runtime := by
  have hmain : errorsWF (order.foldl (mainLoopStep derive behaviorOf validators)
      ⟨⟨[], [], []⟩, [], []⟩).r := by
    apply foldl_preserves (P := fun ls : LoopState => errorsWF ls.r)
    · intro ls mv hls
      unfold mainLoopStep
      by_cases hcond : ((mv.isAsync ||
          !(((alookup validators mv).getD ⟨[], none⟩).depends_on.filter
            (fun d => stateOf (setState ls.r mv ExecutionState.RUNNING) d ==
              ExecutionState.RUNNING)).isEmpty) = true)
      · rw [if_pos hcond]
        exact fun pr hpr => hls pr hpr
      · rw [if_neg hcond]
        exact executeValidatorBody_errorsWF (fun pr hpr => hls pr hpr)
    · intro pr hpr
      cases hpr
  unfold validateRecord
  simp only
  exact foldl_preserves (fun s a hs => executeValidatorBody_errorsWF hs) _ _ hmain

theorem aupdate_keys {α β : Type} [DecidableEq α] (l : List (α × β)) (k : α) (v : β) :
    (aupdate l k v).map Prod.fst =
      if k ∈ l.map Prod.fst then l.map Prod.fst else l.map Prod.fst ++ [k] := by
  induction l with
  | nil => simp [aupdate]
  | cons hd tl ih =>
      simp only [aupdate]
      by_cases hk : k = hd.1
      · rw [if_pos hk]
        simp [hk]
      · rw [if_neg hk]
        simp only [List.map_cons, ih]
        by_cases hmem : k ∈ tl.map Prod.fst
        · rw [if_pos hmem, if_pos (by simp [hmem])]
        · rw [if_neg hmem, if_neg (by
            simp only [List.mem_cons]
            rintro (h1 | h2)
            · exact hk h1
            · exact hmem h2)]
          simp

theorem mem_keys_aupdate {α β : Type} [DecidableEq α] {l : List (α × β)} {k a : α}
    {v : β} : a ∈ (aupdate l k v).map Prod.fst ↔ a ∈ l.map Prod.fst ∨ a = k := by
  rw [aupdate_keys]
  by_cases hmem : k ∈ l.map Prod.fst
  · rw [if_pos hmem]
    constructor
    · exact Or.inl
    · rintro (h | rfl)
      · exact h
      · exact hmem
  · rw [if_neg hmem]
    simp

theorem aupdate_keys_nodup {α β : Type} [DecidableEq α] {l : List (α × β)}
    (h : (l.map Prod.fst).Nodup) (k : α) (v : β) :
    ((aupdate l k v).map Prod.fst).Nodup := by
  rw [aupdate_keys]
  by_cases hmem : k ∈ l.map Prod.fst
  · rwa [if_pos hmem]
  · rw [if_neg hmem]
    rw [List.nodup_append]
    refine ⟨h, List.nodup_singleton _, ?_⟩
    intro a ha hb
    simp only [List.mem_singleton] at hb
    rw [hb] at ha
    exact hmem ha

theorem keys_nodup_inj {α β : Type} {l : List (α × β)} (h : (l.map Prod.fst).Nodup)
    {k : α} {x y : β} (hx : (k, x) ∈ l) (hy : (k, y) ∈ l) : x = y := by
  induction l with
  | nil => simp at hx
  | cons hd tl ih =>
      simp only [List.map_cons, List.nodup_cons] at h
      rcases List.mem_cons.mp hx with hx1 | hx2 <;>
        rcases List.mem_cons.mp hy with hy1 | hy2
      · rw [← hx1] at hy1
        exact (congrArg Prod.snd hy1).symm
      · exfalso
        apply h.1
        have hk : hd.1 = k := by rw [← hx1]
        rw [hk]
        exact List.mem_map.mpr ⟨(k, y), hy2, rfl⟩
      · exfalso
        apply h.1
        have hk : hd.1 = k := by rw [← hy1]
        rw [hk]
        exact List.mem_map.mpr ⟨(k, x), hx2, rfl⟩
      · exact ih h.2 hx2 hy2

theorem handlers_fold_entry {α β : Type} [DecidableEq α] (f : α → β) :
    ∀ (records : List α) (acc : List (α × β)),
      (∀ pr ∈ acc, pr.2 = f pr.1) →
      ∀ pr ∈ records.foldl (fun h ds => aupdate h ds (f ds)) acc, pr.2 = f pr.1 := by
  intro records
  induction records with
  | nil => intro acc hacc pr hpr; exact hacc pr hpr
  | cons ds rest ih =>
      intro acc hacc pr hpr
      apply ih (aupdate acc ds (f ds)) _ pr hpr
      intro q hq
      rcases mem_aupdate hq with h1 | h2
      · rw [h1]
      · exact hacc q h2

theorem handlers_fold_keys {α β : Type} [DecidableEq α] (f : α → β) :
    ∀ (records : List α) (acc : List (α × β)) (a : α),
      (a ∈ (records.foldl (fun h ds => aupdate h ds (f ds)) acc).map Prod.fst ↔
        a ∈ acc.map Prod.fst ∨ a ∈ records) := by
  intro records
  induction records with
  | nil => intro acc a; simp
  | cons ds rest ih =>
      intro acc a
      simp only [List.foldl_cons]
      rw [ih]
      rw [mem_keys_aupdate]
      simp only [List.mem_cons]
      tauto

theorem handlers_fold_keys_nodup {α β : Type} [DecidableEq α] (f : α → β) :
    ∀ (records : List α) (acc : List (α × β)),
      (acc.map Prod.fst).Nodup →
      ((records.foldl (fun h ds => aupdate h ds (f ds)) acc).map Prod.fst).Nodup := by
  intro records
  induction records with
  | nil => intro acc h; exact h
  | cons ds rest ih =>
      intro acc h
      exact ih _ (aupdate_keys_nodup h ds (f ds))

theorem determineSucceeds_closed (handlers : List (Nat × List (MV × List VError))) :
    determineSucceeds handlers =
      ((handlers.filter (fun pr => pr.2.isEmpty)).map Prod.fst,
        (handlers.filter (fun pr => !pr.2.isEmpty)).map
          (fun pr => (pr.1, pr.2.flatMap Prod.snd))) := by
  unfold determineSucceeds
  suffices h : ∀ (hs : List (Nat × List (MV × List VError)))
      (s : List Nat) (d : List (Nat × List VError)),
      hs.foldl (fun acc pr =>
        if pr.2.length > 0 then (acc.1, acc.2 ++ [(pr.1, pr.2.flatMap Prod.snd)])
        else (acc.1 ++ [pr.1], acc.2)) (s, d) =
      (s ++ (hs.filter (fun pr => pr.2.isEmpty)).map Prod.fst,
        d ++ (hs.filter (fun pr => !pr.2.isEmpty)).map
          (fun pr => (pr.1, pr.2.flatMap Prod.snd))) by
    simpa using h handlers [] []
  intro hs
  induction hs with
  | nil => intro s d; simp
  | cons pr rest ih =>
      intro s d
      simp only [List.foldl_cons]
      cases hl : pr.2 with
      | nil =>
          rw [if_neg (by simp [hl])]
          rw [ih]
          simp [List.filter_cons, hl]
      | cons e es =>
          rw [if_pos (by simp [hl])]
          rw [ih]
          simp [List.filter_cons, hl]

theorem flatMap_length_zero_iff {excs : List (MV × List VError)}
    (hwf : ∀ pr ∈ excs, pr.2 ≠ []) :
    (excs.flatMap Prod.snd).length = 0 ↔ excs = [] := by
  constructor
  · intro h
    cases hexcs : excs with
    | nil => rfl
    | cons pr rest =>
        exfalso
        rw [hexcs] at h
        simp only [List.flatMap_cons, List.length_append] at h
        have hne := hwf pr (by rw [hexcs]; simp)
        have : pr.2.length = 0 := by omega
        exact hne (List.length_eq_zero.mp this)
  · intro h
    rw [h]
    rfl

/-- C8: the succeeded data sets and the key set of `data_set_errors` are
disjoint, their union is exactly the set of validated records, and a record
is a succeeded data set iff its per-record error handler recorded zero
errors. -/
theorem validation_result_partition (derive : Identifier → Nat)
    (behaviorOf : Nat → MV → List ProvideItem) (st : ManagerState) (records : List Nat) :
    (∀ ds, ds ∈ (determineSucceeds (validateAll derive behaviorOf st records)).1 →
        ds ∉ ((determineSucceeds (validateAll derive behaviorOf st records)).2.map Prod.fst)) ∧
      (∀ ds, (ds ∈ (determineSucceeds (validateAll derive behaviorOf st records)).1 ∨
          ds ∈ ((determineSucceeds (validateAll derive behaviorOf st records)).2.map Prod.fst)) ↔
        ds ∈ records) ∧
      (∀ ds excs, (ds, excs) ∈ validateAll derive behaviorOf st records →
        (ds ∈ (determineSucceeds (validateAll derive behaviorOf st records)).1 ↔
          (excs.flatMap Prod.snd).length = 0)) := by
  have hall : validateAll derive behaviorOf st records =
      records.foldl (fun h ds => aupdate h ds
        ((fun ds => (validateRecord derive (behaviorOf ds) st.validators
          (topoOrder st)).runtime.errors) ds)) [] := rfl
  have hnodup : ((validateAll derive behaviorOf st records).map Prod.fst).Nodup := by
    rw [hall]
    exact handlers_fold_keys_nodup _ records [] (by simp)
  have hkeys : ∀ a, a ∈ (validateAll derive behaviorOf st records).map Prod.fst ↔
      a ∈ records := by
    intro a
    rw [hall]
    have h := handlers_fold_keys (fun ds =>
      (validateRecord derive (behaviorOf ds) st.validators (topoOrder st)).runtime.errors)
      records [] a
    simpa using h
  have hentry : ∀ pr ∈ validateAll derive behaviorOf st records,
      pr.2 = (validateRecord derive (behaviorOf pr.1) st.validators
        (topoOrder st)).runtime.errors := by
    rw [hall]
    exact handlers_fold_entry _ records [] (by intro pr h; cases h)
  have hwfval : ∀ pr ∈ validateAll derive behaviorOf st records, ∀ q ∈ pr.2, q.2 ≠ [] := by
    intro pr hpr q hq
    rw [hentry pr hpr] at hq
    exact validateRecord_errorsWF derive (behaviorOf pr.1) st.validators (topoOrder st) q hq
  rw [determineSucceeds_closed]
  simp only [List.map_map]
  have hdsekeys : ∀ a,
      (a ∈ ((validateAll derive behaviorOf st records).filter
        (fun pr => !pr.2.isEmpty)).map (Prod.fst ∘ fun pr => (pr.1, pr.2.flatMap Prod.snd))) ↔
      ∃ pr, pr ∈ (validateAll derive behaviorOf st records) ∧ pr.2.isEmpty = false ∧
        pr.1 = a := by
    intro a
    constructor
    · intro h
      rcases List.mem_map.mp h with ⟨pr, hpr, hrfl⟩
      have hf := List.mem_filter.mp hpr
      exact ⟨pr, hf.1, by simpa using hf.2, hrfl⟩
    · rintro ⟨pr, hpr, hne, rfl⟩
      exact List.mem_map.mpr ⟨pr, List.mem_filter.mpr ⟨hpr, by simpa using hne⟩, rfl⟩
  have hsucckeys : ∀ a,
      (a ∈ ((validateAll derive behaviorOf st records).filter
        (fun pr => pr.2.isEmpty)).map Prod.fst) ↔
      ∃ pr, pr ∈ (validateAll derive behaviorOf st records) ∧ pr.2.isEmpty = true ∧
        pr.1 = a := by
    intro a
    constructor
    · intro h
      rcases List.mem_map.mp h with ⟨pr, hpr, hrfl⟩
      have hf := List.mem_filter.mp hpr
      exact ⟨pr, hf.1, hf.2, hrfl⟩
    · rintro ⟨pr, hpr, hemp, rfl⟩
      exact List.mem_map.mpr ⟨pr, List.mem_filter.mpr ⟨hpr, hemp⟩, rfl⟩
  refine ⟨?_, ?_, ?_⟩
  · intro ds hsucc hdse
    rcases (hsucckeys ds).mp hsucc with ⟨pr1, hpr1, hemp1, hfst1⟩
    rcases (hdsekeys ds).mp hdse with ⟨pr2, hpr2, hemp2, hfst2⟩
    have hm1 : (ds, pr1.2) ∈ validateAll derive behaviorOf st records := by
      have : pr1 = (ds, pr1.2) := by
        rw [← hfst1]
      rwa [this] at hpr1
    have hm2 : (ds, pr2.2) ∈ validateAll derive behaviorOf st records := by
      have : pr2 = (ds, pr2.2) := by
        rw [← hfst2]
      rwa [this] at hpr2
    have heq := keys_nodup_inj hnodup hm1 hm2
    rw [← heq] at hemp2
    rw [hemp1] at hemp2
    cases hemp2
  · intro ds
    constructor
    · rintro (h | h)
      · rcases (hsucckeys ds).mp h with ⟨pr, hpr, _, hfst⟩
        rw [← hkeys]
        exact List.mem_map.mpr ⟨pr, hpr, hfst⟩
      · rcases (hdsekeys ds).mp h with ⟨pr, hpr, _, hfst⟩
        rw [← hkeys]
        exact List.mem_map.mpr ⟨pr, hpr, hfst⟩
    · intro h
      rw [← hkeys] at h
      rcases List.mem_map.mp h with ⟨pr, hpr, hfst⟩
      cases hemp : pr.2.isEmpty with
      | true => exact Or.inl ((hsucckeys ds).mpr ⟨pr, hpr, hemp, hfst⟩)
      | false => exact Or.inr ((hdsekeys ds).mpr ⟨pr, hpr, hemp, hfst⟩)
  · intro ds excs hmem
    constructor
    · intro hsucc
      rcases (hsucckeys ds).mp hsucc with ⟨pr1, hpr1, hemp1, hfst1⟩
      have hm1 : (ds, pr1.2) ∈ validateAll derive behaviorOf st records := by
        have : pr1 = (ds, pr1.2) := by
          rw [← hfst1]
        rwa [this] at hpr1
      have heq := keys_nodup_inj hnodup hmem hm1
      rw [heq]
      have : pr1.2 = [] := by
        cases h2 : pr1.2 with
        | nil => rfl
        | cons a b => rw [h2] at hemp1; simp at hemp1
      rw [this]
      rfl
    · intro hzero
      have hwf := hwfval (ds, excs) hmem
      have hnil : excs = [] := (flatMap_length_zero_iff hwf).mp hzero
      apply (hsucckeys ds).mpr
      exact ⟨(ds, excs), hmem, by rw [hnil]; rfl, rfl⟩

/-- Witness for C8: with no validators registered, a single record is a
succeeded data set (and so in the union of the partition). -/
theorem validation_result_partition_witness :
    (1 ∈ (determineSucceeds (validateAll (fun _ => 1234567) (fun _ _ => [])
          ⟨[], [], []⟩ [1])).1 ∨
      1 ∈ ((determineSucceeds (validateAll (fun _ => 1234567) (fun _ _ => [])
          ⟨[], [], []⟩ [1])).2.map Prod.fst)) :=
  ((validation_result_partition (fun _ => 1234567) (fun _ _ => [])
    ⟨[], [], []⟩ [1]).2.1 1).mpr (by decide)

end Bomf
